import Mathlib

/-!
# smileys.c: keyboard-mapping resolution and key-press injection

A shallow embedding of `update_key_presses` and `send_smiley` from
`src/smileys.c`.

* Machine integers are natural numbers; a store into a narrower C type is an
  explicit `% 2^w`.
* `char` is the signed 8-bit type of the x86 ABI: a byte `b` read from
  `sequence[index]` and assigned to the 32-bit `keysym` is sign-extended.
* The fixed-size arrays `name[32]`, `sequence[32]`, `key_presses[32]` are lists;
  an access past the end of the list is undefined behaviour in C and is the
  fault `out_of_bounds` here.
* `xcb_key_symbols_get_keysym (keyboard_mapping, keycode, col)` belongs to the
  xcb-util library.  It is the parameter `km : Nat → Nat → Nat`
  (keycode, column ↦ keysym): the layout snapshot.
* Every C loop is a recursive function on an explicit iteration budget; running
  out of budget is the fault `out_of_fuel`, which the lemmas below exclude.
* The `printf` calls and `DEBUG_ENTER` only write diagnostics and are left out.
-/

namespace Smileys

/-- Value of `XCB_MOD_MASK_SHIFT` in `xcb/xproto.h`. -/
def XCB_MOD_MASK_SHIFT : Nat := 1

/-- Value of `XCB_KEY_PRESS` in `xcb/xproto.h`. -/
def XCB_KEY_PRESS : Nat := 2

/-- Value of `XCB_KEY_RELEASE` in `xcb/xproto.h`. -/
def XCB_KEY_RELEASE : Nat := 3

/-- Value of `XCB_NONE` in `xcb/xcb.h`. -/
def XCB_NONE : Nat := 0

/-- Value of `XCB_EVENT_MASK_KEY_PRESS` in `xcb/xproto.h`. -/
def XCB_EVENT_MASK_KEY_PRESS : Nat := 1

/-- The C `struct key_press`: `xcb_keycode_t keycode; uint16_t modifiers`. -/
structure key_press where
  keycode : Nat
  modifiers : Nat
deriving DecidableEq, Repr

/-- The C `struct smiley`: `name[32]`, `length`, `sequence[32]` (bytes) and
`key_presses[32]`. -/
structure smiley where
  name : List Nat
  length : Nat
  sequence : List Nat
  key_presses : List key_press
deriving DecidableEq, Repr

/-- Ways in which a run of the C code leaves defined behaviour (or, for
`out_of_fuel`, in which the model gives up on a loop). -/
inductive fault where
  | out_of_fuel
  | out_of_bounds
  | null_dereference
deriving DecidableEq, Repr

/-- Outcome of a run: a fault or a value. -/
inductive outcome (α : Type) where
  | fail : fault → outcome α
  | done : α → outcome α
deriving DecidableEq, Repr

/-- The conversion in `keysym = smiley->sequence[index]`: a signed `char`
widened to the unsigned 32-bit `xcb_keysym_t`. -/
def char_to_keysym (b : Nat) : Nat :=
  if b % 256 < 128 then b % 256 else 0xFFFFFF00 + b % 256

/-- The expression `keysym_index == 0 ? 0 : XCB_MOD_MASK_SHIFT`. -/
def modifiers_of (keysym_index : Nat) : Nat :=
  if keysym_index = 0 then 0 else XCB_MOD_MASK_SHIFT

/-- The loop `for (keycode = min_keycode; keycode <= max_keycode; ++keycode)` of
`update_key_presses`, for one `keysym_index`, acting on the slot
`key_presses[index]` (here `kp`).  The counter `keycode` is a `uint16_t`; it is
converted to the 8-bit `xcb_keycode_t` when passed to the lookup and when
stored. -/
def keycode_loop (km : Nat → Nat → Nat) (keysym keysym_index max_keycode : Nat) :
    Nat → Nat → key_press → outcome key_press
  | 0, _, _ => outcome.fail fault.out_of_fuel
  | fuel + 1, keycode, kp =>
    if keycode ≤ max_keycode then
      keycode_loop km keysym keysym_index max_keycode fuel ((keycode + 1) % 65536)
        (if km (keycode % 256) keysym_index = keysym then
          { keycode := keycode % 256, modifiers := modifiers_of keysym_index }
        else kp)
    else outcome.done kp

/-- Iteration budget of the keycode loop: at most 256 keycodes and the final
test. -/
def keycode_fuel : Nat := 257

/-- The loop `for (keysym_index = 0; keysym_index < 2; ++keysym_index)`: the
keycode loop at column 0, then at column 1, on the same slot. -/
def keysym_index_loop (km : Nat → Nat → Nat) (keysym min_keycode max_keycode : Nat)
    (kp : key_press) : outcome key_press :=
  match keycode_loop km keysym 0 max_keycode keycode_fuel min_keycode kp with
  | outcome.fail f => outcome.fail f
  | outcome.done kp0 => keycode_loop km keysym 1 max_keycode keycode_fuel min_keycode kp0

/-- The loop `for (index = 0; index < smiley->length; ++index)` over one smiley.
The counter `index` is a `uint8_t`. -/
def index_loop (km : Nat → Nat → Nat) (min_keycode max_keycode : Nat) :
    Nat → Nat → smiley → outcome smiley
  | 0, _, _ => outcome.fail fault.out_of_fuel
  | fuel + 1, index, s =>
    if index < s.length then
      match s.sequence[index]?, s.key_presses[index]? with
      | some ch, some kp =>
        match keysym_index_loop km (char_to_keysym ch) min_keycode max_keycode kp with
        | outcome.fail f => outcome.fail f
        | outcome.done kp1 =>
          index_loop km min_keycode max_keycode fuel ((index + 1) % 256)
            { s with key_presses := s.key_presses.set index kp1 }
      | _, _ => outcome.fail fault.out_of_bounds
    else outcome.done s

/-- Iteration budget of the index loop: `length` is a `uint8_t`, so at most 255
symbols and the final test. -/
def index_fuel : Nat := 256

/-- The function `update_key_presses`: `vector_for_each (&smileys, smiley)` runs
the index loop on every registered smiley, in registry order.  The arguments
`min_keycode` and `max_keycode` are the two fields read from `xcb_get_setup (c)`. -/
def update_key_presses (km : Nat → Nat → Nat) (min_keycode max_keycode : Nat) :
    List smiley → outcome (List smiley)
  | [] => outcome.done []
  | s :: rest =>
    match index_loop km min_keycode max_keycode index_fuel 0 s with
    | outcome.fail f => outcome.fail f
    | outcome.done s1 =>
      match update_key_presses km min_keycode max_keycode rest with
      | outcome.fail f => outcome.fail f
      | outcome.done rest1 => outcome.done (s1 :: rest1)

/-- The fields of `xcb_key_press_event_t` that `send_smiley` assigns.  The other
fields of the C struct are never written by the function and are sent as the
local variable held them; `xcb_key_press_event_full` below carries all
fourteen. -/
structure xcb_key_press_event_t where
  response_type : Nat
  detail : Nat
  root : Nat
  event : Nat
  child : Nat
  state : Nat
deriving DecidableEq, Repr

/-- Calls that `send_smiley` makes on the X connection, in program order. -/
inductive xcb_call where
  | get_input_focus
  | send_event (propagate : Bool) (destination : Nat) (event_mask : Nat)
      (event : xcb_key_press_event_t)
  | flush
deriving DecidableEq, Repr

/-- The loop `for (index = 0; index < smiley->length; ++index)` of `send_smiley`.
The variable `event` lives across iterations; `calls` is the list of calls made
so far. -/
def send_loop (focus : Nat) (s : smiley) :
    Nat → Nat → xcb_key_press_event_t → List xcb_call → outcome (List xcb_call)
  | 0, _, _, _ => outcome.fail fault.out_of_fuel
  | fuel + 1, index, event, calls =>
    if index < s.length then
      match s.key_presses[index]? with
      | some kp =>
        let event1 := { event with detail := kp.keycode, state := kp.modifiers }
        send_loop focus s fuel ((index + 1) % 256) event1
          (calls ++ [xcb_call.send_event false focus XCB_EVENT_MASK_KEY_PRESS event1])
      | none => outcome.fail fault.out_of_bounds
    else outcome.done calls

/-- The function `send_smiley`.  `focus_reply` is what
`xcb_get_input_focus_reply` returns (`none` for a null pointer, otherwise the
`focus` field), `screen_root` is `screen->root`, and the `state` field of the
event is uninitialised before the loop, here the argument `state0`. -/
def send_smiley (smileys : List smiley) (focus_reply : Option Nat) (screen_root state0 : Nat)
    (smiley_index : Nat) : outcome (List xcb_call) :=
  match focus_reply with
  | none => outcome.fail fault.null_dereference
  | some focus =>
    let event : xcb_key_press_event_t :=
      { response_type := XCB_KEY_PRESS, detail := 52, root := screen_root,
        event := focus, child := XCB_NONE, state := state0 }
    match smileys[smiley_index]? with
    | none => outcome.fail fault.out_of_bounds
    | some s =>
      match send_loop focus s index_fuel 0 event [xcb_call.get_input_focus] with
      | outcome.fail f => outcome.fail f
      | outcome.done calls => outcome.done (calls ++ [xcb_call.flush])

/-- Scenario A layout: keycode 38 column 0 gives a colon, keycode 25 column 1 a
closing parenthesis, every other entry is `NoSymbol`. -/
def layout_a : Nat → Nat → Nat := fun k col =>
  if k = 38 ∧ col = 0 then 58 else if k = 25 ∧ col = 1 then 41 else 0

/-- A smiley whose sequence is a colon followed by a closing parenthesis, with
all 32 slots holding `junk`. -/
def smile (junk : key_press) : smiley :=
  { name := [115, 109, 105, 108, 101] ++ List.replicate 27 0
    length := 2
    sequence := [58, 41] ++ List.replicate 30 0
    key_presses := List.replicate 32 junk }

/-- The function `update_key_presses` followed by `send_smiley` on the rebuilt
registry. -/
def rebuild_then_send (km : Nat → Nat → Nat) (min_keycode max_keycode : Nat)
    (smileys : List smiley) (focus_reply : Option Nat) (screen_root state0 smiley_index : Nat) :
    outcome (List xcb_call) :=
  match update_key_presses km min_keycode max_keycode smileys with
  | outcome.fail f => outcome.fail f
  | outcome.done smileys1 => send_smiley smileys1 focus_reply screen_root state0 smiley_index

/-- Scenario B layout: the colon has moved to keycode 50 column 0, the closing
parenthesis is still keycode 25 column 1. -/
def layout_b : Nat → Nat → Nat := fun k col =>
  if k = 50 ∧ col = 0 then 58 else if k = 25 ∧ col = 1 then 41 else 0

/-- Scenario C layout: only the colon is mapped (keycode 38 column 0). -/
def layout_c : Nat → Nat → Nat := fun k col =>
  if k = 38 ∧ col = 0 then 58 else 0

/-- A smiley whose sequence is the single letter a, with all 32 slots holding
`junk`. -/
def letter_a (junk : key_press) : smiley :=
  { name := [97] ++ List.replicate 31 0
    length := 1
    sequence := [97] ++ List.replicate 31 0
    key_presses := List.replicate 32 junk }

/-- A smiley whose sequence is a colon followed by the letter D, with all 32
slots holding `junk`. -/
def grin (junk : key_press) : smiley :=
  { name := [103, 114, 105, 110] ++ List.replicate 28 0
    length := 2
    sequence := [58, 68] ++ List.replicate 30 0
    key_presses := List.replicate 32 junk }

/-- The keycode loop once more, with two observations added to its result: the
list of `(keycode, col)` pairs with which `xcb_key_symbols_get_keysym` was
called, in call order, and the value of the `uint16_t` counter `keycode` when
the loop is left. -/
def keycode_loop_probes (km : Nat → Nat → Nat) (keysym keysym_index max_keycode : Nat) :
    Nat → Nat → key_press → List (Nat × Nat) → outcome (key_press × List (Nat × Nat) × Nat)
  | 0, _, _, _ => outcome.fail fault.out_of_fuel
  | fuel + 1, keycode, kp, probes =>
    if keycode ≤ max_keycode then
      keycode_loop_probes km keysym keysym_index max_keycode fuel ((keycode + 1) % 65536)
        (if km (keycode % 256) keysym_index = keysym then
          { keycode := keycode % 256, modifiers := modifiers_of keysym_index }
        else kp)
        (probes ++ [(keycode % 256, keysym_index)])
    else outcome.done (kp, probes, keycode)

/-- The loop over `keysym_index` with the lookups of both columns recorded: what
the scan for one symbol leaves in the slot, and every `(keycode, col)` pair it
looked up. -/
def keysym_index_loop_probes (km : Nat → Nat → Nat) (keysym min_keycode max_keycode : Nat)
    (kp : key_press) : outcome (key_press × List (Nat × Nat)) :=
  match keycode_loop_probes km keysym 0 max_keycode keycode_fuel min_keycode kp [] with
  | outcome.fail f => outcome.fail f
  | outcome.done (kp0, probes0, _) =>
    match keycode_loop_probes km keysym 1 max_keycode keycode_fuel min_keycode kp0 probes0 with
    | outcome.fail f => outcome.fail f
    | outcome.done (kp1, probes1, _) => outcome.done (kp1, probes1)

/-- The result of a recording run without its record. -/
def outcome_fst {α β : Type} : outcome (α × β) → outcome α
  | outcome.fail f => outcome.fail f
  | outcome.done (a, _) => outcome.done a

/-- The index loop with the lookups of the whole smiley recorded: the body is
that of `index_loop`, and the pairs looked up for each symbol are appended, in
order, to the pairs recorded so far. -/
def index_loop_probes (km : Nat → Nat → Nat) (min_keycode max_keycode : Nat) :
    Nat → Nat → smiley → List (Nat × Nat) → outcome (smiley × List (Nat × Nat))
  | 0, _, _, _ => outcome.fail fault.out_of_fuel
  | fuel + 1, index, s, probes =>
    if index < s.length then
      match s.sequence[index]?, s.key_presses[index]? with
      | some ch, some kp =>
        match keysym_index_loop_probes km (char_to_keysym ch) min_keycode max_keycode kp with
        | outcome.fail f => outcome.fail f
        | outcome.done (kp1, probes1) =>
          index_loop_probes km min_keycode max_keycode fuel ((index + 1) % 256)
            { s with key_presses := s.key_presses.set index kp1 } (probes ++ probes1)
      | _, _ => outcome.fail fault.out_of_bounds
    else outcome.done (s, probes)

/-- The function `update_key_presses` with every call of
`xcb_key_symbols_get_keysym` of the run recorded, in call order, as the pair
`(keycode, col)` it is called with. -/
def update_key_presses_probes (km : Nat → Nat → Nat) (min_keycode max_keycode : Nat) :
    List smiley → outcome (List smiley × List (Nat × Nat))
  | [] => outcome.done ([], [])
  | s :: rest =>
    match index_loop_probes km min_keycode max_keycode index_fuel 0 s [] with
    | outcome.fail f => outcome.fail f
    | outcome.done (s1, probes1) =>
      match update_key_presses_probes km min_keycode max_keycode rest with
      | outcome.fail f => outcome.fail f
      | outcome.done (rest1, probes2) => outcome.done (s1 :: rest1, probes1 ++ probes2)

/-- The lookups of the scan for one symbol: every keycode of `[min, max]` in
column 0, then every keycode of `[min, max]` in column 1. -/
def symbol_probes (min_keycode max_keycode : Nat) : List (Nat × Nat) :=
  (List.range' min_keycode (max_keycode + 1 - min_keycode)).map (fun k => (k, 0))
    ++ (List.range' min_keycode (max_keycode + 1 - min_keycode)).map (fun k => (k, 1))

/-- The lookups expected for `n` symbols: `n` times the lookups of one symbol. -/
def smiley_probes (min_keycode max_keycode : Nat) : Nat → List (Nat × Nat)
  | 0 => []
  | n + 1 => symbol_probes min_keycode max_keycode ++ smiley_probes min_keycode max_keycode n

/-- The lookups expected for a registry: those of each smiley's `length` symbols,
in registry order. -/
def registry_probes (min_keycode max_keycode : Nat) : List smiley → List (Nat × Nat)
  | [] => []
  | s :: rest =>
    smiley_probes min_keycode max_keycode s.length ++ registry_probes min_keycode max_keycode rest

/-- A layout at the top of the keycode range: keycode 254 column 0 gives a
colon, keycode 255 column 1 a closing parenthesis. -/
def layout_high : Nat → Nat → Nat := fun k col =>
  if k = 254 ∧ col = 0 then 58 else if k = 255 ∧ col = 1 then 41 else 0

/-- The globals of the module and of the host that the two functions can reach:
the registry `smileys`, the current `keyboard_mapping`, the keycode range of
`xcb_get_setup (c)` and `screen->root`. -/
structure globals where
  smileys : List smiley
  keyboard_mapping : Nat → Nat → Nat
  min_keycode : Nat
  max_keycode : Nat
  screen_root : Nat

/-- All fourteen fields of `xcb_key_press_event_t` in `xcb/xproto.h`, in
declaration order.  `send_smiley` assigns `response_type`, `detail`, `root`,
`event`, `child` and `state`; the other eight keep whatever the local variable
`event` held when the function was entered. -/
structure xcb_key_press_event_full where
  response_type : Nat
  detail : Nat
  sequence : Nat
  time : Nat
  root : Nat
  event : Nat
  child : Nat
  root_x : Int
  root_y : Int
  event_x : Int
  event_y : Int
  state : Nat
  same_screen : Nat
  pad0 : Nat
deriving DecidableEq, Repr

/-- Calls that `send_smiley` makes on the X connection, with the whole event
struct that `xcb_send_event` is handed. -/
inductive xcb_call_full where
  | get_input_focus
  | send_event (propagate : Bool) (destination : Nat) (event_mask : Nat)
      (event : xcb_key_press_event_full)
  | flush
deriving DecidableEq, Repr

/-- The six assigned fields of a whole event. -/
def event_view (e : xcb_key_press_event_full) : xcb_key_press_event_t :=
  { response_type := e.response_type, detail := e.detail, root := e.root,
    event := e.event, child := e.child, state := e.state }

/-- A call with its event cut down to the six assigned fields. -/
def call_view : xcb_call_full → xcb_call
  | xcb_call_full.get_input_focus => xcb_call.get_input_focus
  | xcb_call_full.send_event p d m e => xcb_call.send_event p d m (event_view e)
  | xcb_call_full.flush => xcb_call.flush

/-- The calls of a run on the globals, each cut down to the six assigned
fields. -/
def calls_view : outcome (globals × List xcb_call_full) → outcome (List xcb_call)
  | outcome.fail f => outcome.fail f
  | outcome.done (_, calls) => outcome.done (calls.map call_view)

/-- The loop of `send_smiley` as a step on the globals, with the whole event
struct.  `smiley` is the pointer `&smileys.data[smiley_index]`: the loop test
reads `smiley->length` and the body reads `smiley->key_presses[index]` from the
registry of the current globals.  Nothing in the body assigns to a global, so the
globals are handed on as they are. -/
def send_loop_globals (focus smiley_index : Nat) :
    Nat → globals → Nat → xcb_key_press_event_full → List xcb_call_full →
      outcome (globals × List xcb_call_full)
  | 0, _, _, _, _ => outcome.fail fault.out_of_fuel
  | fuel + 1, g, index, event, calls =>
    match g.smileys[smiley_index]? with
    | none => outcome.fail fault.out_of_bounds
    | some s =>
      if index < s.length then
        match s.key_presses[index]? with
        | some kp =>
          let event1 := { event with detail := kp.keycode, state := kp.modifiers }
          send_loop_globals focus smiley_index fuel g ((index + 1) % 256) event1
            (calls ++ [xcb_call_full.send_event false focus XCB_EVENT_MASK_KEY_PRESS event1])
        | none => outcome.fail fault.out_of_bounds
      else outcome.done (g, calls)

/-- The function `send_smiley` as a step on the globals, with the whole event
struct: `event0` is the indeterminate content of the local variable `event` on
entry, of which the five assignments before the loop and the two in the loop
overwrite six fields. -/
def send_smiley_globals (g : globals) (focus_reply : Option Nat)
    (event0 : xcb_key_press_event_full) (smiley_index : Nat) :
    outcome (globals × List xcb_call_full) :=
  match focus_reply with
  | none => outcome.fail fault.null_dereference
  | some focus =>
    let event : xcb_key_press_event_full :=
      { event0 with response_type := XCB_KEY_PRESS, detail := 52, root := g.screen_root,
                    event := focus, child := XCB_NONE }
    match send_loop_globals focus smiley_index index_fuel g 0 event
        [xcb_call_full.get_input_focus] with
    | outcome.fail f => outcome.fail f
    | outcome.done (g1, calls) => outcome.done (g1, calls ++ [xcb_call_full.flush])

/-- Some content of the local variable `event` on entry to `send_smiley`. -/
def event_junk : xcb_key_press_event_full :=
  { response_type := 11, detail := 12, sequence := 13, time := 14, root := 15, event := 16,
    child := 17, root_x := -18, root_y := 19, event_x := 20, event_y := 21, state := 22,
    same_screen := 23, pad0 := 24 }

/-- The whole event that `send_smiley` dispatches for the stored key press `kp`:
six fields assigned, eight left as `event0` had them. -/
def press_event_full (event0 : xcb_key_press_event_full) (focus root : Nat) (kp : key_press) :
    xcb_key_press_event_full :=
  { event0 with response_type := XCB_KEY_PRESS, detail := kp.keycode, root := root,
                event := focus, child := XCB_NONE, state := kp.modifiers }

/-- A Latin-1 layout: keycode 38 column 0 gives e-acute (keysym 0xE9 = 233),
every other entry is `NoSymbol`. -/
def layout_latin1 : Nat → Nat → Nat := fun k col =>
  if k = 38 ∧ col = 0 then 233 else 0

/-- A smiley whose sequence is the single byte 0xE9, with all 32 slots holding
`junk`. -/
def e_acute (junk : key_press) : smiley :=
  { name := [101] ++ List.replicate 31 0
    length := 1
    sequence := [233] ++ List.replicate 31 0
    key_presses := List.replicate 32 junk }

/-- The smile as Scenario A resolves it, `[(38, none), (25, shift)]`, with the 30
unused slots holding `junk`. -/
def resolved_smile (junk : key_press) : smiley :=
  { smile junk with
      key_presses := ⟨38, 0⟩ :: ⟨25, XCB_MOD_MASK_SHIFT⟩ :: List.replicate 30 junk }

/-- Globals under layout A: the resolved smile and a grin, range `[24, 51]`. -/
def globals_a : globals :=
  { smileys := [resolved_smile ⟨7, 7⟩, grin ⟨9, 4⟩]
    keyboard_mapping := layout_a
    min_keycode := 24
    max_keycode := 51
    screen_root := 1 }

/-- Globals under layout B: the resolved smile with other unused slots and the
letter a, range `[8, 255]`. -/
def globals_b : globals :=
  { smileys := [resolved_smile ⟨3, 3⟩, letter_a ⟨5, 5⟩]
    keyboard_mapping := layout_b
    min_keycode := 8
    max_keycode := 255
    screen_root := 1 }

/-- The globals of `globals_a` on another screen: only `screen->root` differs. -/
def globals_root2 : globals :=
  { globals_a with screen_root := 2 }

/-- Keycode `k` is the greatest keycode in `[lo, hi]` that column `lvl` of the
layout maps to `keysym`. -/
def last_match (km : Nat → Nat → Nat) (keysym lvl lo hi k : Nat) : Prop :=
  lo ≤ k ∧ k ≤ hi ∧ km k lvl = keysym ∧ ∀ k', k < k' → k' ≤ hi → km k' lvl ≠ keysym

/-- No keycode in `[lo, hi]` is mapped to `keysym` by column `lvl`. -/
def no_match (km : Nat → Nat → Nat) (keysym lvl lo hi : Nat) : Prop :=
  ∀ k, lo ≤ k → k ≤ hi → km k lvl ≠ keysym

/-- The array bounds of `struct smiley`, and a `length` that stays inside
them. -/
def smiley_ok (s : smiley) : Prop :=
  s.sequence.length = 32 ∧ s.key_presses.length = 32 ∧ s.length ≤ 32

/-- What the two columns together leave in a slot that held `kp`: the last
column-1 match if there is one, else the last column-0 match if there is one,
else `kp` itself. -/
def slot_rel (km : Nat → Nat → Nat) (keysym lo hi : Nat) (kp r : key_press) : Prop :=
  (∃ k, last_match km keysym 1 lo hi k ∧ r = { keycode := k, modifiers := XCB_MOD_MASK_SHIFT }) ∨
  (no_match km keysym 1 lo hi ∧
    ∃ k, last_match km keysym 0 lo hi k ∧ r = { keycode := k, modifiers := 0 }) ∨
  (no_match km keysym 1 lo hi ∧ no_match km keysym 0 lo hi ∧ r = kp)

/-- What the index loop started at `start` does to a smiley: slots
`start .. length - 1` are resolved, everything else is kept. -/
def smiley_rel (km : Nat → Nat → Nat) (lo hi start : Nat) (s s' : smiley) : Prop :=
  s'.name = s.name ∧ s'.length = s.length ∧ s'.sequence = s.sequence ∧
  s'.key_presses.length = s.key_presses.length ∧
  ∀ i, ((i < start ∨ s.length ≤ i) → s'.key_presses[i]? = s.key_presses[i]?) ∧
    (start ≤ i → i < s.length → ∃ ch kp r, s.sequence[i]? = some ch ∧
      s.key_presses[i]? = some kp ∧ s'.key_presses[i]? = some r ∧
      slot_rel km (char_to_keysym ch) lo hi kp r)

/-- The call made for one stored key press once `event` has been filled in. -/
def press_call (focus : Nat) (event : xcb_key_press_event_t) (kp : key_press) : xcb_call :=
  xcb_call.send_event false focus XCB_EVENT_MASK_KEY_PRESS
    { event with detail := kp.keycode, state := kp.modifiers }

/-! ## The keycode loop -/

theorem last_match_unique {km : Nat → Nat → Nat} {keysym lvl lo hi k1 k2 : Nat}
    (h1 : last_match km keysym lvl lo hi k1) (h2 : last_match km keysym lvl lo hi k2) :
    k1 = k2 := by
  obtain ⟨_, a2, a3, a4⟩ := h1
  obtain ⟨_, b2, b3, b4⟩ := h2
  rcases Nat.lt_trichotomy k1 k2 with h | h | h
  · exact absurd b3 (a4 k2 h b2)
  · exact h
  · exact absurd a3 (b4 k1 h a2)

theorem keycode_loop_spec (km : Nat → Nat → Nat) (keysym lvl hi : Nat) (hhi : hi < 256) :
    ∀ (fuel keycode : Nat) (kp : key_press), 1 ≤ fuel → hi + 2 ≤ fuel + keycode →
      ∃ r, keycode_loop km keysym lvl hi fuel keycode kp = outcome.done r ∧
        ((no_match km keysym lvl keycode hi ∧ r = kp) ∨
          ∃ k, last_match km keysym lvl keycode hi k ∧
            r = { keycode := k, modifiers := modifiers_of lvl }) := by
  intro fuel
  induction fuel with
  | zero => intro _ _ h; omega
  | succ fuel ih =>
    intro keycode kp _ hf
    by_cases hle : keycode ≤ hi
    · have hw : (keycode + 1) % 65536 = keycode + 1 := Nat.mod_eq_of_lt (by omega)
      have hb : keycode % 256 = keycode := Nat.mod_eq_of_lt (by omega)
      have hstep1 : keycode_loop km keysym lvl hi (fuel + 1) keycode kp
          = keycode_loop km keysym lvl hi fuel (keycode + 1)
              (if km keycode lvl = keysym then
                { keycode := keycode, modifiers := modifiers_of lvl } else kp) := by
        simp only [keycode_loop, hle, if_true, hw, hb]
      obtain ⟨r, hr, hcase⟩ := ih (keycode + 1)
        (if km keycode lvl = keysym then
          { keycode := keycode, modifiers := modifiers_of lvl } else kp) (by omega) (by omega)
      refine ⟨r, by rw [hstep1, hr], ?_⟩
      rcases hcase with ⟨hno, hreq⟩ | ⟨k, ⟨k1, k2, k3, k4⟩, hreq⟩
      · by_cases hm : km keycode lvl = keysym
        · right
          refine ⟨keycode, ⟨le_refl _, hle, hm, ?_⟩, by simpa [hm] using hreq⟩
          intro k' hk' hk'hi
          exact hno k' (by omega) hk'hi
        · left
          refine ⟨?_, by simpa [hm] using hreq⟩
          intro k hk hkhi
          rcases Nat.eq_or_lt_of_le hk with h | h
          · subst h; exact hm
          · exact hno k (by omega) hkhi
      · right
        exact ⟨k, ⟨by omega, k2, k3, k4⟩, hreq⟩
    · refine ⟨kp, by simp only [keycode_loop, hle, if_false], Or.inl ⟨?_, rfl⟩⟩
      intro k hk hkhi
      omega

/-! ## The two columns -/

theorem keysym_index_loop_spec (km : Nat → Nat → Nat) (keysym lo hi : Nat) (hhi : hi < 256)
    (kp : key_press) :
    ∃ r, keysym_index_loop km keysym lo hi kp = outcome.done r ∧ slot_rel km keysym lo hi kp r := by
  obtain ⟨r0, h0, c0⟩ := keycode_loop_spec km keysym 0 hi hhi keycode_fuel lo kp
    (by unfold keycode_fuel; omega) (by unfold keycode_fuel; omega)
  obtain ⟨r1, h1, c1⟩ := keycode_loop_spec km keysym 1 hi hhi keycode_fuel lo r0
    (by unfold keycode_fuel; omega) (by unfold keycode_fuel; omega)
  refine ⟨r1, by simp only [keysym_index_loop, h0, h1], ?_⟩
  rcases c1 with ⟨n1, e1⟩ | ⟨k, m1, e1⟩
  · rcases c0 with ⟨n0, e0⟩ | ⟨k, m0, e0⟩
    · exact Or.inr (Or.inr ⟨n1, n0, by rw [e1, e0]⟩)
    · exact Or.inr (Or.inl ⟨n1, k, m0, by rw [e1, e0]; simp [modifiers_of]⟩)
  · exact Or.inl ⟨k, m1, by rw [e1]; simp [modifiers_of]⟩

/-- A slot relation pins the result down: two results for the same slot content
agree. -/
theorem slot_rel_unique {km : Nat → Nat → Nat} {keysym lo hi : Nat} {kp r1 r2 : key_press}
    (h1 : slot_rel km keysym lo hi kp r1) (h2 : slot_rel km keysym lo hi kp r2) : r1 = r2 := by
  rcases h1 with ⟨k1, m1, e1⟩ | ⟨n1, k1, m1, e1⟩ | ⟨n1, z1, e1⟩ <;>
  rcases h2 with ⟨k2, m2, e2⟩ | ⟨n2, k2, m2, e2⟩ | ⟨n2, z2, e2⟩
  · rw [e1, e2, last_match_unique m1 m2]
  · exact absurd m1.2.2.1 (n2 k1 m1.1 m1.2.1)
  · exact absurd m1.2.2.1 (n2 k1 m1.1 m1.2.1)
  · exact absurd m2.2.2.1 (n1 k2 m2.1 m2.2.1)
  · rw [e1, e2, last_match_unique m1 m2]
  · exact absurd m1.2.2.1 (z2 k1 m1.1 m1.2.1)
  · exact absurd m2.2.2.1 (n1 k2 m2.1 m2.2.1)
  · exact absurd m2.2.2.1 (z1 k2 m2.1 m2.2.1)
  · rw [e1, e2]

/-- When no keycode in range produces the keysym in column 0 or 1, the slot
keeps its content. -/
theorem slot_rel_keeps {km : Nat → Nat → Nat} {keysym lo hi : Nat} {kp r : key_press}
    (hnone : ∀ k lvl, lo ≤ k → k ≤ hi → lvl < 2 → km k lvl ≠ keysym)
    (h : slot_rel km keysym lo hi kp r) : r = kp := by
  rcases h with ⟨k, m, _⟩ | ⟨_, k, m, _⟩ | ⟨_, _, e⟩
  · exact absurd m.2.2.1 (hnone k 1 m.1 m.2.1 (by omega))
  · exact absurd m.2.2.1 (hnone k 0 m.1 m.2.1 (by omega))
  · exact e

/-- Running the two columns again on their own result changes nothing. -/
theorem slot_rel_again {km : Nat → Nat → Nat} {keysym lo hi : Nat} {kp r : key_press}
    (h : slot_rel km keysym lo hi kp r) : slot_rel km keysym lo hi r r := by
  rcases h with h | h | ⟨a, b, _⟩
  · exact Or.inl h
  · exact Or.inr (Or.inl h)
  · exact Or.inr (Or.inr ⟨a, b, rfl⟩)

/-! ## The index loop and the registry loop -/

theorem index_loop_spec (km : Nat → Nat → Nat) (lo hi : Nat) (hhi : hi < 256) :
    ∀ (fuel index : Nat) (s : smiley), 1 ≤ fuel → s.length + 1 ≤ fuel + index →
      s.length < 256 → s.length ≤ s.sequence.length → s.length ≤ s.key_presses.length →
      ∃ s', index_loop km lo hi fuel index s = outcome.done s' ∧ smiley_rel km lo hi index s s' := by
  intro fuel
  induction fuel with
  | zero => intro _ _ h; omega
  | succ fuel ih =>
    intro index s _ hf h8 hseq hkps
    by_cases hlt : index < s.length
    · have hw : (index + 1) % 256 = index + 1 := Nat.mod_eq_of_lt (by omega)
      have hch : s.sequence[index]? = some (s.sequence[index]) :=
        List.getElem?_eq_getElem (by omega)
      have hkp : s.key_presses[index]? = some (s.key_presses[index]) :=
        List.getElem?_eq_getElem (by omega)
      obtain ⟨r, hr, hrel⟩ :=
        keysym_index_loop_spec km (char_to_keysym (s.sequence[index])) lo hi hhi (s.key_presses[index])
      obtain ⟨s', hs', n1, n2, n3, n4, hslots⟩ := ih (index + 1)
        { s with key_presses := s.key_presses.set index r } (by omega) (by simpa using by omega)
        h8 hseq (by simpa using hkps)
      refine ⟨s', ?_, n1, n2, n3, by simpa using n4, ?_⟩
      · rw [← hs']
        simp only [index_loop, hlt, if_true, hch, hkp, hr, hw]
      · intro i
        constructor
        · intro hi
          have h1 := (hslots i).1
          rcases hi with hi | hi
          · rw [h1 (Or.inl (by omega))]
            exact List.getElem?_set_ne (by omega)
          · rw [h1 (Or.inr hi)]
            exact List.getElem?_set_ne (by omega)
        · intro hi1 hi2
          rcases Nat.eq_or_lt_of_le hi1 with h | h
          · subst h
            refine ⟨_, _, r, hch, hkp, ?_, hrel⟩
            rw [(hslots index).1 (Or.inl (by omega))]
            exact List.getElem?_set_self (by omega)
          · obtain ⟨ch, kp, r', a1, a2, a3, a4⟩ := (hslots i).2 (by omega) hi2
            refine ⟨ch, kp, r', a1, ?_, a3, a4⟩
            rw [← a2]
            exact (List.getElem?_set_ne (by omega)).symm
    · refine ⟨s, by simp only [index_loop, hlt, if_false], rfl, rfl, rfl, rfl, ?_⟩
      intro i
      exact ⟨fun _ => rfl, fun _ _ => by omega⟩

theorem update_key_presses_spec (km : Nat → Nat → Nat) (lo hi : Nat) (hhi : hi < 256) :
    ∀ smileys : List smiley, (∀ s ∈ smileys, smiley_ok s) →
      ∃ smileys', update_key_presses km lo hi smileys = outcome.done smileys' ∧
        List.Forall₂ (smiley_rel km lo hi 0) smileys smileys' := by
  intro smileys
  induction smileys with
  | nil => intro _; exact ⟨[], rfl, List.Forall₂.nil⟩
  | cons s rest ih =>
    intro hok
    obtain ⟨q1, q2, q3⟩ := hok s (List.mem_cons_self _ _)
    obtain ⟨s', hs', hrel⟩ := index_loop_spec km lo hi hhi index_fuel 0 s
      (by unfold index_fuel; omega) (by unfold index_fuel; omega) (by omega) (by omega) (by omega)
    obtain ⟨rest', hrest', hrels⟩ := ih (fun x hx => hok x (List.mem_cons_of_mem _ hx))
    exact ⟨s' :: rest', by simp only [update_key_presses, hs', hrest'],
      List.Forall₂.cons hrel hrels⟩

/-- Position-wise reading of the registry relation. -/
theorem forall₂_getElem? {α β : Type} {R : α → β → Prop} :
    ∀ {l1 : List α} {l2 : List β}, List.Forall₂ R l1 l2 →
      ∀ (j : Nat) (a : α), l1[j]? = some a → ∃ b, l2[j]? = some b ∧ R a b := by
  intro l1 l2 h
  induction h with
  | nil => intro j a ha; simp at ha
  | cons hab _ ih =>
    intro j a ha
    cases j with
    | zero =>
      simp only [List.getElem?_cons_zero, Option.some.injEq] at ha
      subst ha
      exact ⟨_, by simp, hab⟩
    | succ j =>
      simp only [List.getElem?_cons_succ] at ha
      obtain ⟨b, hb, hr⟩ := ih j a ha
      exact ⟨b, by simpa using hb, hr⟩

/-! ## Injection -/

theorem send_loop_spec (focus : Nat) (s : smiley) (h8 : s.length < 256)
    (hkps : s.length ≤ s.key_presses.length) :
    ∀ (fuel index : Nat) (event : xcb_key_press_event_t) (calls : List xcb_call),
      1 ≤ fuel → s.length + 1 ≤ fuel + index →
      send_loop focus s fuel index event calls = outcome.done
        (calls ++ ((s.key_presses.take s.length).drop index).map (press_call focus event)) := by
  intro fuel
  induction fuel with
  | zero => intro _ _ _ h; omega
  | succ fuel ih =>
    intro index event calls _ hf
    by_cases hlt : index < s.length
    · have hw : (index + 1) % 256 = index + 1 := Nat.mod_eq_of_lt (by omega)
      have hkp : s.key_presses[index]? = some (s.key_presses[index]) :=
        List.getElem?_eq_getElem (by omega)
      have hlen : index < (s.key_presses.take s.length).length := by
        rw [List.length_take]; omega
      have hdrop : (s.key_presses.take s.length).drop index
          = s.key_presses[index] :: (s.key_presses.take s.length).drop (index + 1) := by
        rw [List.drop_eq_getElem_cons hlen, List.getElem_take]
      have hnext := ih (index + 1)
        { event with detail := (s.key_presses[index]).keycode,
                     state := (s.key_presses[index]).modifiers }
        (calls ++ [press_call focus event (s.key_presses[index])]) (by omega) (by omega)
      simp only [send_loop, hlt, if_true, hkp, hw]
      rw [hdrop, List.map_cons]
      simp only [press_call] at hnext ⊢
      rw [hnext, List.append_assoc]
      rfl
    · have hnil : (s.key_presses.take s.length).drop index = [] := by
        apply List.drop_eq_nil_of_le
        rw [List.length_take]; omega
      simp only [send_loop, hlt, if_false, hnil, List.map_nil, List.append_nil]

/-- The whole of `send_smiley` on a sequence that stays inside its arrays, when
the focus query has a reply. -/
theorem send_smiley_spec (smileys : List smiley) (focus root state0 idx : Nat) (s : smiley)
    (hs : smileys[idx]? = some s) (hlen : s.length ≤ 32) (hkps : s.key_presses.length = 32) :
    send_smiley smileys (some focus) root state0 idx = outcome.done
      (xcb_call.get_input_focus ::
        ((s.key_presses.take s.length).map (fun kp =>
          xcb_call.send_event false focus XCB_EVENT_MASK_KEY_PRESS
            { response_type := XCB_KEY_PRESS, detail := kp.keycode, root := root,
              event := focus, child := XCB_NONE, state := kp.modifiers })
        ++ [xcb_call.flush])) := by
  have h := send_loop_spec focus s (by omega) (by omega) index_fuel 0
    { response_type := XCB_KEY_PRESS, detail := 52, root := root,
      event := focus, child := XCB_NONE, state := state0 } [xcb_call.get_input_focus]
    (by unfold index_fuel; omega) (by unfold index_fuel; omega)
  simp only [send_smiley, hs, h, List.drop_zero]
  rfl

/-! ## Slot-level consequences -/

theorem char_to_keysym_ascii {ch : Nat} (h : ch < 128) : char_to_keysym ch = ch := by
  unfold char_to_keysym
  have : ch % 256 = ch := Nat.mod_eq_of_lt (by omega)
  rw [this, if_pos h]

/-- The rebuild returns, and every registered smiley is related to its rebuilt
version at the same registry position. -/
theorem update_slots (km : Nat → Nat → Nat) (lo hi : Nat) (hhi : hi < 256)
    (smileys : List smiley) (hok : ∀ s ∈ smileys, smiley_ok s) :
    ∃ smileys', update_key_presses km lo hi smileys = outcome.done smileys' ∧
      ∀ (j : Nat) (s : smiley), smileys[j]? = some s →
        ∃ s', smileys'[j]? = some s' ∧ smiley_rel km lo hi 0 s s' := by
  obtain ⟨smileys', h, hrel⟩ := update_key_presses_spec km lo hi hhi smileys hok
  exact ⟨smileys', h, fun j s hs => forall₂_getElem? hrel j s hs⟩

/-- One slot of a rebuilt smiley. -/
theorem smiley_rel_slot {km : Nat → Nat → Nat} {lo hi : Nat} {s s' : smiley} {i ch : Nat}
    (hrel : smiley_rel km lo hi 0 s s') (hi1 : i < s.length) (hch : s.sequence[i]? = some ch) :
    ∃ kp r, s.key_presses[i]? = some kp ∧ s'.key_presses[i]? = some r ∧
      slot_rel km (char_to_keysym ch) lo hi kp r := by
  obtain ⟨ch', kp, r, a1, a2, a3, a4⟩ := (hrel.2.2.2.2 i).2 (Nat.zero_le _) hi1
  rw [hch] at a1
  cases a1
  exact ⟨kp, r, a2, a3, a4⟩

/-- The rebuild returns, and one chosen slot `i < length` of one chosen smiley
is resolved from what it held. -/
theorem update_slot (km : Nat → Nat → Nat) (lo hi : Nat) (hhi : hi < 256)
    (smileys : List smiley) (hok : ∀ s ∈ smileys, smiley_ok s) (j : Nat) (s : smiley)
    (i ch : Nat) (hs : smileys[j]? = some s) (hi1 : i < s.length)
    (hch : s.sequence[i]? = some ch) :
    ∃ smileys' s' kp r, update_key_presses km lo hi smileys = outcome.done smileys' ∧
      smileys'[j]? = some s' ∧ s.key_presses[i]? = some kp ∧ s'.key_presses[i]? = some r ∧
      slot_rel km (char_to_keysym ch) lo hi kp r := by
  obtain ⟨smileys', h, hall⟩ := update_slots km lo hi hhi smileys hok
  obtain ⟨s', hs', hrel⟩ := hall j s hs
  obtain ⟨kp, r, a, b, c⟩ := smiley_rel_slot hrel hi1 hch
  exact ⟨smileys', s', kp, r, h, hs', a, b, c⟩

/-- When the keysym has a match, the slot ends up holding a match. -/
theorem slot_rel_sound {km : Nat → Nat → Nat} {keysym lo hi k lvl : Nat} {kp r : key_press}
    (hlo : lo ≤ k) (hhi : k ≤ hi) (hlvl : lvl < 2) (hk : km k lvl = keysym)
    (h : slot_rel km keysym lo hi kp r) :
    lo ≤ r.keycode ∧ r.keycode ≤ hi ∧
      ((r.modifiers = 0 ∧ km r.keycode 0 = keysym) ∨
       (r.modifiers = XCB_MOD_MASK_SHIFT ∧ km r.keycode 1 = keysym)) := by
  rcases h with ⟨k1, m, e⟩ | ⟨_, k0, m, e⟩ | ⟨a, b, _⟩
  · subst e
    exact ⟨m.1, m.2.1, Or.inr ⟨rfl, m.2.2.1⟩⟩
  · subst e
    exact ⟨m.1, m.2.1, Or.inl ⟨rfl, m.2.2.1⟩⟩
  · have : lvl = 0 ∨ lvl = 1 := by omega
    rcases this with h | h <;> subst h
    · exact absurd hk (b k hlo hhi)
    · exact absurd hk (a k hlo hhi)

theorem registry_ok_singleton {s : smiley} (h : smiley_ok s) : ∀ x ∈ [s], smiley_ok x := by
  intro x hx
  rw [List.mem_singleton] at hx
  rw [hx]
  exact h

theorem registry_ok_pair {s t : smiley} (hs : smiley_ok s) (ht : smiley_ok t) :
    ∀ x ∈ [s, t], smiley_ok x := by
  intro x hx
  rw [List.mem_cons, List.mem_singleton] at hx
  rcases hx with h | h <;> rw [h]
  · exact hs
  · exact ht

theorem smile_ok (junk : key_press) : smiley_ok (smile junk) := by
  refine ⟨?_, ?_, ?_⟩ <;> simp [smile]

theorem grin_ok (junk : key_press) : smiley_ok (grin junk) := by
  refine ⟨?_, ?_, ?_⟩ <;> simp [grin]

/-! ## C1: soundness of resolution -/

/-- C1. For a registry that stays inside its arrays and an 8-bit keycode range,
take any slot `i < length` of any registered smiley whose symbol `ch` is ASCII
and is produced by some keycode `k` in `[min, max]` in column 0 or 1.  Then
`update_key_presses` returns, and afterwards the slot holds `(k', m)` with
`min ≤ k' ≤ max` and either `m = 0` and the layout maps `k'` in column 0 to `ch`,
or `m` is the shift mask and the layout maps `k'` in column 1 to `ch`; the
previous content of the slot is arbitrary. -/
theorem resolution_sound (km : Nat → Nat → Nat) (min_keycode max_keycode : Nat)
    (smileys : List smiley) (j : Nat) (s : smiley) (i ch k lvl : Nat)
    (hok : ∀ x ∈ smileys, smiley_ok x) (hmax : max_keycode < 256)
    (hs : smileys[j]? = some s) (hi : i < s.length) (hch : s.sequence[i]? = some ch)
    (hascii : ch < 128) (hlo : min_keycode ≤ k) (hhi : k ≤ max_keycode) (hlvl : lvl < 2)
    (hmap : km k lvl = ch) :
    ∃ smileys' s' kp, update_key_presses km min_keycode max_keycode smileys = outcome.done smileys' ∧
      smileys'[j]? = some s' ∧ s'.key_presses[i]? = some kp ∧
      min_keycode ≤ kp.keycode ∧ kp.keycode ≤ max_keycode ∧
      ((kp.modifiers = 0 ∧ km kp.keycode 0 = ch) ∨
       (kp.modifiers = XCB_MOD_MASK_SHIFT ∧ km kp.keycode 1 = ch)) := by
  obtain ⟨smileys', s', kp, r, h, hs', _, hr, hrel⟩ :=
    update_slot km min_keycode max_keycode hmax smileys hok j s i ch hs hi hch
  rw [char_to_keysym_ascii hascii] at hrel
  exact ⟨smileys', s', r, h, hs', hr, slot_rel_sound hlo hhi hlvl hmap hrel⟩

/-- C1 at Scenario A: slot 1 of the smile (the closing parenthesis, keysym 41),
which keycode 25 produces in column 1, with range `[24, 51]`. -/
theorem resolution_sound_witness :
    (∀ x ∈ [smile ⟨7, 7⟩], smiley_ok x) ∧ 51 < 256 ∧
    [smile ⟨7, 7⟩][0]? = some (smile ⟨7, 7⟩) ∧ 1 < (smile ⟨7, 7⟩).length ∧
    (smile ⟨7, 7⟩).sequence[1]? = some 41 ∧ 41 < 128 ∧ 24 ≤ 25 ∧ 25 ≤ 51 ∧ 1 < 2 ∧
    layout_a 25 1 = 41 ∧
    ∃ smileys' s' kp, update_key_presses layout_a 24 51 [smile ⟨7, 7⟩] = outcome.done smileys' ∧
      smileys'[0]? = some s' ∧ s'.key_presses[1]? = some kp ∧
      24 ≤ kp.keycode ∧ kp.keycode ≤ 51 ∧
      ((kp.modifiers = 0 ∧ layout_a kp.keycode 0 = 41) ∨
       (kp.modifiers = XCB_MOD_MASK_SHIFT ∧ layout_a kp.keycode 1 = 41)) :=
  ⟨registry_ok_singleton (smile_ok _), by decide, by decide, by decide, by decide, by decide,
    by decide, by decide, by decide, by decide,
    resolution_sound layout_a 24 51 [smile ⟨7, 7⟩] 0 (smile ⟨7, 7⟩) 1 41 25 1
      (registry_ok_singleton (smile_ok _)) (by decide) (by decide) (by decide) (by decide)
      (by decide) (by decide) (by decide) (by decide) (by decide)⟩

/-! ## C2: the tie-break -/

/-- A member of the stored prefix sits at an index below `length`. -/
theorem mem_take_index {kps : List key_press} {n : Nat} {kp : key_press}
    (h : kp ∈ kps.take n) : ∃ i, i < n ∧ kps[i]? = some kp := by
  obtain ⟨i, hi⟩ := List.getElem?_of_mem h
  rw [List.getElem?_take] at hi
  by_cases hlt : i < n
  · rw [if_pos hlt] at hi
    exact ⟨i, hlt, hi⟩
  · rw [if_neg hlt] at hi
    cases hi

/-- C4. For every registry, every index `idx` of a registered smiley `s` with
`length = N ≤ 32` and any content of its 32 slots, when the focus query has a
reply, `send_smiley` returns having made, after the focus query, exactly `N`
send-event calls and then exactly one flush, the last call: the `i`-th event is
built from `key_presses[i]` for `i = 0 .. N-1` in increasing order, no flush
stands between dispatches, and for `N = 0` the calls are the focus query and
one flush. -/
theorem send_count_order_flush (smileys : List smiley) (focus root state0 idx : Nat) (s : smiley)
    (hs : smileys[idx]? = some s) (hlen : s.length ≤ 32) (hkps : s.key_presses.length = 32) :
    ∃ events : List xcb_key_press_event_t,
      send_smiley smileys (some focus) root state0 idx = outcome.done
        (xcb_call.get_input_focus ::
          (events.map (xcb_call.send_event false focus XCB_EVENT_MASK_KEY_PRESS)
          ++ [xcb_call.flush])) ∧
      events.length = s.length ∧
      (∀ i, i < s.length → ∃ kp ev, s.key_presses[i]? = some kp ∧ events[i]? = some ev ∧
        ev.detail = kp.keycode ∧ ev.state = kp.modifiers) ∧
      (s.length = 0 → send_smiley smileys (some focus) root state0 idx
        = outcome.done [xcb_call.get_input_focus, xcb_call.flush]) := by
  have hspec := send_smiley_spec smileys focus root state0 idx s hs hlen hkps
  refine ⟨(s.key_presses.take s.length).map (fun kp =>
      { response_type := XCB_KEY_PRESS, detail := kp.keycode, root := root,
        event := focus, child := XCB_NONE, state := kp.modifiers }), ?_, ?_, ?_, ?_⟩
  · rw [hspec, List.map_map]
    rfl
  · rw [List.length_map, List.length_take]
    omega
  · intro i hi
    have hkp : s.key_presses[i]? = some (s.key_presses[i]) :=
      List.getElem?_eq_getElem (by omega)
    refine ⟨s.key_presses[i],
      { response_type := XCB_KEY_PRESS, detail := (s.key_presses[i]).keycode, root := root,
        event := focus, child := XCB_NONE, state := (s.key_presses[i]).modifiers },
      hkp, ?_, rfl, rfl⟩
    rw [List.getElem?_map, List.getElem?_take, if_pos hi, hkp]
    rfl
  · intro h0
    rw [hspec, h0]
    rfl

/-- C4 at the smile of Scenario A after its rebuild: two slots, focus window 9. -/
theorem send_count_order_flush_witness :
    [smile ⟨7, 7⟩][0]? = some (smile ⟨7, 7⟩) ∧ (smile ⟨7, 7⟩).length ≤ 32 ∧
    (smile ⟨7, 7⟩).key_presses.length = 32 ∧
    ∃ events : List xcb_key_press_event_t,
      send_smiley [smile ⟨7, 7⟩] (some 9) 1 0 0 = outcome.done
        (xcb_call.get_input_focus ::
          (events.map (xcb_call.send_event false 9 XCB_EVENT_MASK_KEY_PRESS)
          ++ [xcb_call.flush])) ∧
      events.length = (smile ⟨7, 7⟩).length ∧
      (∀ i, i < (smile ⟨7, 7⟩).length → ∃ kp ev, (smile ⟨7, 7⟩).key_presses[i]? = some kp ∧
        events[i]? = some ev ∧ ev.detail = kp.keycode ∧ ev.state = kp.modifiers) ∧
      ((smile ⟨7, 7⟩).length = 0 → send_smiley [smile ⟨7, 7⟩] (some 9) 1 0 0
        = outcome.done [xcb_call.get_input_focus, xcb_call.flush]) :=
  ⟨by decide, by decide, by decide,
    send_count_order_flush [smile ⟨7, 7⟩] 9 1 0 0 (smile ⟨7, 7⟩) (by decide) (by decide)
      (by decide)⟩

/-- C5. Under the hypotheses of C4 (focus query answered with window `focus`,
`length ≤ 32`), `send_smiley` returns a call list that starts with the focus
query, and every send-event call in it carries an event of kind key-press (not
key-release), has `focus` both as its destination and as the event's window
field, and has as `detail` and `state` the keycode and modifiers of a stored
`key_presses[i]` with `i < length`; the call at position `i + 1` is the one for
slot `i`.  A `detail` of 52 therefore only occurs when the stored keycode is
52. -/
theorem sent_event_content (smileys : List smiley) (focus root state0 idx : Nat) (s : smiley)
    (hs : smileys[idx]? = some s) (hlen : s.length ≤ 32) (hkps : s.key_presses.length = 32) :
    ∃ calls, send_smiley smileys (some focus) root state0 idx = outcome.done calls ∧
      calls[0]? = some xcb_call.get_input_focus ∧
      (∀ propagate destination mask ev,
        xcb_call.send_event propagate destination mask ev ∈ calls →
        ev.response_type = XCB_KEY_PRESS ∧ ev.response_type ≠ XCB_KEY_RELEASE ∧
        destination = focus ∧ ev.event = focus ∧
        ∃ i kp, i < s.length ∧ s.key_presses[i]? = some kp ∧
          ev.detail = kp.keycode ∧ ev.state = kp.modifiers ∧
          (ev.detail = 52 → kp.keycode = 52)) ∧
      (∀ i, i < s.length → ∃ kp, s.key_presses[i]? = some kp ∧
        calls[i + 1]? = some (xcb_call.send_event false focus XCB_EVENT_MASK_KEY_PRESS
          { response_type := XCB_KEY_PRESS, detail := kp.keycode, root := root,
            event := focus, child := XCB_NONE, state := kp.modifiers })) := by
  have hspec := send_smiley_spec smileys focus root state0 idx s hs hlen hkps
  refine ⟨_, hspec, List.getElem?_cons_zero, ?_, ?_⟩
  · intro propagate destination mask ev hmem
    rw [List.mem_cons] at hmem
    rcases hmem with h | hmem
    · cases h
    rw [List.mem_append] at hmem
    rcases hmem with hmem | hmem
    · rw [List.mem_map] at hmem
      obtain ⟨kp, hkp, heq⟩ := hmem
      obtain ⟨i, hi, hget⟩ := mem_take_index hkp
      injection heq with _ e2 _ e4
      subst e2
      subst e4
      have hne : XCB_KEY_PRESS ≠ XCB_KEY_RELEASE := by decide
      exact ⟨rfl, hne, rfl, rfl, i, kp, hi, hget, rfl, rfl, fun h => h⟩
    · rw [List.mem_singleton] at hmem
      cases hmem
  · intro i hi
    have hkp : s.key_presses[i]? = some (s.key_presses[i]) :=
      List.getElem?_eq_getElem (by omega)
    refine ⟨s.key_presses[i], hkp, ?_⟩
    have hlt : i < ((s.key_presses.take s.length).map (fun kp =>
        xcb_call.send_event false focus XCB_EVENT_MASK_KEY_PRESS
          { response_type := XCB_KEY_PRESS, detail := kp.keycode, root := root,
            event := focus, child := XCB_NONE, state := kp.modifiers })).length := by
      rw [List.length_map, List.length_take]
      omega
    rw [List.getElem?_cons_succ, List.getElem?_append_left hlt, List.getElem?_map,
      List.getElem?_take, if_pos hi, hkp]
    rfl

/-- C5 at a smile whose slots all hold `(52, 3)`: the detail 52 that is sent is
the stored keycode. -/
theorem sent_event_content_witness :
    [smile ⟨52, 3⟩][0]? = some (smile ⟨52, 3⟩) ∧ (smile ⟨52, 3⟩).length ≤ 32 ∧
    (smile ⟨52, 3⟩).key_presses.length = 32 ∧
    ∃ calls, send_smiley [smile ⟨52, 3⟩] (some 9) 1 0 0 = outcome.done calls ∧
      calls[0]? = some xcb_call.get_input_focus ∧
      (∀ propagate destination mask ev,
        xcb_call.send_event propagate destination mask ev ∈ calls →
        ev.response_type = XCB_KEY_PRESS ∧ ev.response_type ≠ XCB_KEY_RELEASE ∧
        destination = 9 ∧ ev.event = 9 ∧
        ∃ i kp, i < (smile ⟨52, 3⟩).length ∧ (smile ⟨52, 3⟩).key_presses[i]? = some kp ∧
          ev.detail = kp.keycode ∧ ev.state = kp.modifiers ∧
          (ev.detail = 52 → kp.keycode = 52)) ∧
      (∀ i, i < (smile ⟨52, 3⟩).length → ∃ kp, (smile ⟨52, 3⟩).key_presses[i]? = some kp ∧
        calls[i + 1]? = some (xcb_call.send_event false 9 XCB_EVENT_MASK_KEY_PRESS
          { response_type := XCB_KEY_PRESS, detail := kp.keycode, root := 1,
            event := 9, child := XCB_NONE, state := kp.modifiers })) :=
  ⟨by decide, by decide, by decide,
    sent_event_content [smile ⟨52, 3⟩] 9 1 0 0 (smile ⟨52, 3⟩) (by decide) (by decide)
      (by decide)⟩

/-! ## C3: rebuild, then inject -/

/-- The call that `send_smiley` makes for slot `i`, by position in the call
list. -/
theorem send_smiley_call_at (smileys : List smiley) (focus root state0 idx : Nat) (s : smiley)
    (i : Nat) (kp : key_press)
    (hs : smileys[idx]? = some s) (hlen : s.length ≤ 32) (hkps : s.key_presses.length = 32)
    (hi : i < s.length) (hkp : s.key_presses[i]? = some kp) :
    ∃ calls, send_smiley smileys (some focus) root state0 idx = outcome.done calls ∧
      calls.length = s.length + 2 ∧
      calls[i + 1]? = some (xcb_call.send_event false focus XCB_EVENT_MASK_KEY_PRESS
        { response_type := XCB_KEY_PRESS, detail := kp.keycode, root := root,
          event := focus, child := XCB_NONE, state := kp.modifiers }) := by
  have hspec := send_smiley_spec smileys focus root state0 idx s hs hlen hkps
  have hmaplen : ((s.key_presses.take s.length).map (fun kp =>
      xcb_call.send_event false focus XCB_EVENT_MASK_KEY_PRESS
        { response_type := XCB_KEY_PRESS, detail := kp.keycode, root := root,
          event := focus, child := XCB_NONE, state := kp.modifiers })).length = s.length := by
    rw [List.length_map, List.length_take]
    omega
  refine ⟨_, hspec, ?_, ?_⟩
  · rw [List.length_cons, List.length_append, hmaplen]
    rfl
  · rw [List.getElem?_cons_succ, List.getElem?_append_left (by rw [hmaplen]; exact hi),
      List.getElem?_map, List.getElem?_take, if_pos hi, hkp]
    rfl

theorem layout_c_no_paren (k l : Nat) : layout_c k l ≠ char_to_keysym 41 := by
  have h41 : char_to_keysym 41 = 41 := by decide
  rw [h41]
  unfold layout_c
  split_ifs <;> omega

/-- C6 as stated fails.  In Scenario C the closing parenthesis has no match in
`[24, 51]`; two registries that differ only in the content of its slot (slot 1:
`(7, 7)` against `(9, 4)`) give two different call lists, and the second event
carries the old content of the slot. -/
theorem unresolved_symbol_sends_stale_slot :
    (∀ k l, 24 ≤ k → k ≤ 51 → l < 2 → layout_c k l ≠ char_to_keysym 41) ∧
    (smile ⟨7, 7⟩).sequence[1]? = some 41 ∧
    rebuild_then_send layout_c 24 51 [smile ⟨7, 7⟩] (some 9) 1 0 0
      = outcome.done
        [xcb_call.get_input_focus,
         xcb_call.send_event false 9 XCB_EVENT_MASK_KEY_PRESS
           { response_type := XCB_KEY_PRESS, detail := 38, root := 1, event := 9,
             child := XCB_NONE, state := 0 },
         xcb_call.send_event false 9 XCB_EVENT_MASK_KEY_PRESS
           { response_type := XCB_KEY_PRESS, detail := 7, root := 1, event := 9,
             child := XCB_NONE, state := 7 },
         xcb_call.flush] ∧
    rebuild_then_send layout_c 24 51
        [{ smile ⟨7, 7⟩ with key_presses := (smile ⟨7, 7⟩).key_presses.set 1 ⟨9, 4⟩ }]
        (some 9) 1 0 0
      = outcome.done
        [xcb_call.get_input_focus,
         xcb_call.send_event false 9 XCB_EVENT_MASK_KEY_PRESS
           { response_type := XCB_KEY_PRESS, detail := 38, root := 1, event := 9,
             child := XCB_NONE, state := 0 },
         xcb_call.send_event false 9 XCB_EVENT_MASK_KEY_PRESS
           { response_type := XCB_KEY_PRESS, detail := 9, root := 1, event := 9,
             child := XCB_NONE, state := 4 },
         xcb_call.flush] ∧
    rebuild_then_send layout_c 24 51 [smile ⟨7, 7⟩] (some 9) 1 0 0
      ≠ rebuild_then_send layout_c 24 51
        [{ smile ⟨7, 7⟩ with key_presses := (smile ⟨7, 7⟩).key_presses.set 1 ⟨9, 4⟩ }]
        (some 9) 1 0 0 :=
  ⟨fun k l _ _ _ => layout_c_no_paren k l, by decide, by decide, by decide, by decide⟩

/-- C6, amended.  For a registry that stays inside its arrays and an 8-bit
keycode range, take a registered smiley at index `j` and a slot `i < length`
whose keysym is produced by no keycode in `[min, max]` in column 0 or 1, and
let `kp` be what the slot holds before the rebuild.  Then `update_key_presses`
followed by `send_smiley j`, with the focus query answered, returns a list of
`length + 2` calls (nothing is skipped), and the call for slot `i` is a
key-press event carrying exactly `kp.keycode` and `kp.modifiers`. -/
theorem unresolved_symbol_keeps_slot_in_event (km : Nat → Nat → Nat)
    (min_keycode max_keycode : Nat) (smileys : List smiley) (focus root state0 j : Nat)
    (s : smiley) (i ch : Nat) (kp : key_press)
    (hok : ∀ x ∈ smileys, smiley_ok x) (hmax : max_keycode < 256)
    (hs : smileys[j]? = some s) (hi : i < s.length) (hch : s.sequence[i]? = some ch)
    (hkp : s.key_presses[i]? = some kp)
    (hnone : ∀ k l, min_keycode ≤ k → k ≤ max_keycode → l < 2 → km k l ≠ char_to_keysym ch) :
    ∃ calls, rebuild_then_send km min_keycode max_keycode smileys (some focus) root state0 j
        = outcome.done calls ∧
      calls.length = s.length + 2 ∧
      calls[i + 1]? = some (xcb_call.send_event false focus XCB_EVENT_MASK_KEY_PRESS
        { response_type := XCB_KEY_PRESS, detail := kp.keycode, root := root,
          event := focus, child := XCB_NONE, state := kp.modifiers }) := by
  obtain ⟨smileys', hrun, hall⟩ := update_slots km min_keycode max_keycode hmax smileys hok
  obtain ⟨s', hs', hrel⟩ := hall j s hs
  obtain ⟨_, q2, q3⟩ := hok s (List.getElem?_mem hs)
  obtain ⟨kp0, r, hkp0, hr, hslot⟩ := smiley_rel_slot hrel hi hch
  have hrkp : r = kp := by
    rw [slot_rel_keeps hnone hslot]
    rw [hkp] at hkp0
    cases hkp0
    rfl
  have hlen' : s'.length = s.length := hrel.2.1
  obtain ⟨calls, hcalls, hn, hat⟩ := send_smiley_call_at smileys' focus root state0 j s' i kp hs'
    (by rw [hlen']; exact q3) (by rw [hrel.2.2.2.1]; exact q2) (by rw [hlen']; exact hi)
    (by rw [hr, hrkp])
  refine ⟨calls, ?_, by rw [hn, hlen'], hat⟩
  simp only [rebuild_then_send, hrun, hcalls]

/-- C6 amended, at Scenario C: slot 1 of the smile (the closing parenthesis)
holds `(7, 7)` before the rebuild and has no match in `[24, 51]`. -/
theorem unresolved_symbol_keeps_slot_in_event_witness :
    (∀ x ∈ [smile ⟨7, 7⟩], smiley_ok x) ∧ 51 < 256 ∧
    [smile ⟨7, 7⟩][0]? = some (smile ⟨7, 7⟩) ∧ 1 < (smile ⟨7, 7⟩).length ∧
    (smile ⟨7, 7⟩).sequence[1]? = some 41 ∧ (smile ⟨7, 7⟩).key_presses[1]? = some ⟨7, 7⟩ ∧
    (∀ k l, 24 ≤ k → k ≤ 51 → l < 2 → layout_c k l ≠ char_to_keysym 41) ∧
    ∃ calls, rebuild_then_send layout_c 24 51 [smile ⟨7, 7⟩] (some 9) 1 0 0
        = outcome.done calls ∧
      calls.length = (smile ⟨7, 7⟩).length + 2 ∧
      calls[1 + 1]? = some (xcb_call.send_event false 9 XCB_EVENT_MASK_KEY_PRESS
        { response_type := XCB_KEY_PRESS, detail := (⟨7, 7⟩ : key_press).keycode, root := 1,
          event := 9, child := XCB_NONE, state := (⟨7, 7⟩ : key_press).modifiers }) :=
  ⟨registry_ok_singleton (smile_ok _), by decide, by decide, by decide, by decide, by decide,
    fun k l _ _ _ => layout_c_no_paren k l,
    unresolved_symbol_keeps_slot_in_event layout_c 24 51 [smile ⟨7, 7⟩] 9 1 0 0
      (smile ⟨7, 7⟩) 1 41 ⟨7, 7⟩ (registry_ok_singleton (smile_ok _)) (by decide) (by decide)
      (by decide) (by decide) (by decide) (fun k l _ _ _ => layout_c_no_paren k l)⟩

/-! ## C7 and C8: kept slots, and rebuilding twice -/

/-- A rebuilt smiley in which every slot below `length` kept its content is the
smiley itself. -/
theorem smiley_rel_eq_of_kept {km : Nat → Nat → Nat} {lo hi : Nat} {s s' : smiley}
    (hrel : smiley_rel km lo hi 0 s s')
    (hkept : ∀ i, i < s.length → s'.key_presses[i]? = s.key_presses[i]?) : s' = s := by
  obtain ⟨n1, n2, n3, _, hslots⟩ := hrel
  have hk : s'.key_presses = s.key_presses := by
    apply List.ext_getElem?
    intro i
    by_cases hi : i < s.length
    · exact hkept i hi
    · exact (hslots i).1 (Or.inr (by omega))
  cases s
  cases s'
  simp only at n1 n2 n3 hk
  rw [n1, n2, n3, hk]

/-- A slot below `length` whose keysym has no match keeps its content. -/
theorem smiley_rel_slot_kept {km : Nat → Nat → Nat} {lo hi : Nat} {s s' : smiley} {i ch : Nat}
    (hrel : smiley_rel km lo hi 0 s s') (hi1 : i < s.length) (hch : s.sequence[i]? = some ch)
    (hnone : ∀ k l, lo ≤ k → k ≤ hi → l < 2 → km k l ≠ char_to_keysym ch) :
    s'.key_presses[i]? = s.key_presses[i]? := by
  obtain ⟨kp, r, a, b, c⟩ := smiley_rel_slot hrel hi1 hch
  rw [a, b, slot_rel_keeps hnone c]

/-- Lists related position by position, where related elements are equal, are
equal. -/
theorem forall₂_eq_of_pointwise {α : Type} {R : α → α → Prop} :
    ∀ {l1 l2 : List α}, List.Forall₂ R l1 l2 → (∀ a ∈ l1, ∀ b, R a b → b = a) → l2 = l1 := by
  intro l1 l2 h
  induction h with
  | nil => intro _; rfl
  | cons hab _ ih =>
    intro hpt
    rw [hpt _ (List.mem_cons_self _ _) _ hab,
      ih (fun a ha b hr => hpt a (List.mem_cons_of_mem _ ha) b hr)]

/-- Two successive relations whose second step is always the identity. -/
theorem forall₂_fixed {α : Type} {R : α → α → Prop}
    (hfix : ∀ a b c, R a b → R b c → c = b) :
    ∀ {l1 l2 : List α}, List.Forall₂ R l1 l2 → ∀ {l3 : List α}, List.Forall₂ R l2 l3 → l3 = l2 := by
  intro l1 l2 h
  induction h with
  | nil =>
    intro l3 h3
    cases h3
    rfl
  | cons hab _ ih =>
    intro l3 h3
    cases h3 with
    | cons hbc hrest =>
      rw [hfix _ _ _ hab hbc, ih hrest]

/-- The rebuild keeps every smiley inside its arrays. -/
theorem registry_ok_of_rel {km : Nat → Nat → Nat} {lo hi : Nat} :
    ∀ {l1 l2 : List smiley}, List.Forall₂ (smiley_rel km lo hi 0) l1 l2 →
      (∀ s ∈ l1, smiley_ok s) → ∀ s ∈ l2, smiley_ok s := by
  intro l1 l2 h
  induction h with
  | nil => intro _ s hs; cases hs
  | cons hab _ ih =>
    intro hok s hs
    rw [List.mem_cons] at hs
    rcases hs with hs | hs
    · subst hs
      obtain ⟨q1, q2, q3⟩ := hok _ (List.mem_cons_self _ _)
      obtain ⟨_, n2, n3, n4, _⟩ := hab
      exact ⟨by rw [n3]; exact q1, by rw [n4]; exact q2, by rw [n2]; exact q3⟩
    · exact ih (fun x hx => hok x (List.mem_cons_of_mem _ hx)) s hs

/-- Rebuilding a rebuilt smiley changes nothing. -/
theorem smiley_rel_fixed {km : Nat → Nat → Nat} {lo hi : Nat} (s s1 s2 : smiley)
    (h1 : smiley_rel km lo hi 0 s s1) (h2 : smiley_rel km lo hi 0 s1 s2) : s2 = s1 := by
  apply smiley_rel_eq_of_kept h2
  intro i hi
  have hlen : s1.length = s.length := h1.2.1
  have hseq : s1.sequence = s.sequence := h1.2.2.1
  obtain ⟨ch, kp, r, a1, _, a3, a4⟩ := (h1.2.2.2.2 i).2 (Nat.zero_le _) (by omega)
  obtain ⟨ch', kp', r', b1, b2, b3, b4⟩ := (h2.2.2.2.2 i).2 (Nat.zero_le _) hi
  rw [hseq, a1] at b1
  cases b1
  rw [a3] at b2
  cases b2
  rw [b3, a3, slot_rel_unique b4 (slot_rel_again a4)]

/-- C7. For a registry that stays inside its arrays and an 8-bit keycode range,
`update_key_presses` returns a registry in which every slot `i < length` whose
keysym is produced by no keycode in `[min, max]` in column 0 or 1 holds exactly
what it held before.  If no registered symbol has a match (in particular for a
layout that maps nothing), or if `min > max`, the returned registry equals the
registry before the call. -/
theorem unmatched_slots_persist (km : Nat → Nat → Nat) (min_keycode max_keycode : Nat)
    (smileys : List smiley) (hok : ∀ x ∈ smileys, smiley_ok x) (hmax : max_keycode < 256) :
    ∃ smileys', update_key_presses km min_keycode max_keycode smileys = outcome.done smileys' ∧
      (∀ (j : Nat) (s : smiley) (i ch : Nat), smileys[j]? = some s → i < s.length →
        s.sequence[i]? = some ch →
        (∀ k l, min_keycode ≤ k → k ≤ max_keycode → l < 2 → km k l ≠ char_to_keysym ch) →
        ∃ s', smileys'[j]? = some s' ∧ s'.key_presses[i]? = s.key_presses[i]?) ∧
      ((∀ s ∈ smileys, ∀ i ch, i < s.length → s.sequence[i]? = some ch →
          ∀ k l, min_keycode ≤ k → k ≤ max_keycode → l < 2 → km k l ≠ char_to_keysym ch) →
        smileys' = smileys) ∧
      (max_keycode < min_keycode → smileys' = smileys) := by
  obtain ⟨smileys', hrun, hrel⟩ :=
    update_key_presses_spec km min_keycode max_keycode hmax smileys hok
  have hall : (∀ s ∈ smileys, ∀ i ch, i < s.length → s.sequence[i]? = some ch →
      ∀ k l, min_keycode ≤ k → k ≤ max_keycode → l < 2 → km k l ≠ char_to_keysym ch) →
      smileys' = smileys := by
    intro hnone
    apply forall₂_eq_of_pointwise hrel
    intro s hs s' hss'
    apply smiley_rel_eq_of_kept hss'
    intro i hi
    obtain ⟨q1, _, q3⟩ := hok s hs
    have hch : s.sequence[i]? = some (s.sequence[i]) := List.getElem?_eq_getElem (by omega)
    exact smiley_rel_slot_kept hss' hi hch (hnone s hs i _ hi hch)
  refine ⟨smileys', hrun, ?_, hall, ?_⟩
  · intro j s i ch hs hi hch hnone
    obtain ⟨s', hs', hss'⟩ := forall₂_getElem? hrel j s hs
    exact ⟨s', hs', smiley_rel_slot_kept hss' hi hch hnone⟩
  · intro hempty
    apply hall
    intro s _ i ch _ _ k l h1 h2
    omega

/-- C7 at Scenario C, range `[24, 51]`, the smile with all slots `(7, 7)`: the
rebuild writes slot 0 and keeps slot 1, whose symbol has no match. -/
theorem unmatched_slots_persist_witness :
    (∀ x ∈ [smile ⟨7, 7⟩], smiley_ok x) ∧ 51 < 256 ∧
    (∃ smileys', update_key_presses layout_c 24 51 [smile ⟨7, 7⟩] = outcome.done smileys' ∧
      (∀ (j : Nat) (s : smiley) (i ch : Nat), [smile ⟨7, 7⟩][j]? = some s → i < s.length →
        s.sequence[i]? = some ch →
        (∀ k l, 24 ≤ k → k ≤ 51 → l < 2 → layout_c k l ≠ char_to_keysym ch) →
        ∃ s', smileys'[j]? = some s' ∧ s'.key_presses[i]? = s.key_presses[i]?) ∧
      ((∀ s ∈ [smile ⟨7, 7⟩], ∀ i ch, i < s.length → s.sequence[i]? = some ch →
          ∀ k l, 24 ≤ k → k ≤ 51 → l < 2 → layout_c k l ≠ char_to_keysym ch) →
        smileys' = [smile ⟨7, 7⟩]) ∧
      (51 < 24 → smileys' = [smile ⟨7, 7⟩])) ∧
    update_key_presses layout_c 24 51 [smile ⟨7, 7⟩] = outcome.done
      [{ smile ⟨7, 7⟩ with key_presses := ⟨38, 0⟩ :: List.replicate 31 ⟨7, 7⟩ }] ∧
    update_key_presses layout_c 51 24 [smile ⟨7, 7⟩] = outcome.done [smile ⟨7, 7⟩] :=
  ⟨registry_ok_singleton (smile_ok _), by decide,
    unmatched_slots_persist layout_c 24 51 [smile ⟨7, 7⟩]
      (registry_ok_singleton (smile_ok _)) (by decide),
    by decide, by decide⟩

/-- C8. For every registry that stays inside its arrays, whatever its slots
hold, and every layout with an 8-bit range, `update_key_presses` returns a
registry on which a second `update_key_presses` with the same layout and range
returns that same registry: every field of every smiley is unchanged by the
second rebuild. -/
theorem rebuild_idempotent (km : Nat → Nat → Nat) (min_keycode max_keycode : Nat)
    (smileys : List smiley) (hok : ∀ x ∈ smileys, smiley_ok x) (hmax : max_keycode < 256) :
    ∃ smileys', update_key_presses km min_keycode max_keycode smileys = outcome.done smileys' ∧
      update_key_presses km min_keycode max_keycode smileys' = outcome.done smileys' := by
  obtain ⟨smileys', hrun, hrel⟩ :=
    update_key_presses_spec km min_keycode max_keycode hmax smileys hok
  obtain ⟨smileys'', hrun', hrel'⟩ :=
    update_key_presses_spec km min_keycode max_keycode hmax smileys'
      (registry_ok_of_rel hrel hok)
  refine ⟨smileys', hrun, ?_⟩
  rw [hrun', forall₂_fixed smiley_rel_fixed hrel hrel']

/-- C8 at Scenario C, where slot 0 is mapped and slot 1 is not. -/
theorem rebuild_idempotent_witness :
    (∀ x ∈ [smile ⟨7, 7⟩], smiley_ok x) ∧ 51 < 256 ∧
    ∃ smileys', update_key_presses layout_c 24 51 [smile ⟨7, 7⟩] = outcome.done smileys' ∧
      update_key_presses layout_c 24 51 smileys' = outcome.done smileys' :=
  ⟨registry_ok_singleton (smile_ok _), by decide,
    rebuild_idempotent layout_c 24 51 [smile ⟨7, 7⟩]
      (registry_ok_singleton (smile_ok _)) (by decide)⟩

/-! ## C9 and C10: the result depends on the layout and the symbol only -/

/-- C11. For a registry that stays inside its arrays and an 8-bit keycode
range, `update_key_presses` returns a registry with the same number of smileys
in the same order: the smiley at each registry index has the same name, the
same symbol string, the same length and equally many slots as before, and every
slot at an index `≥ length` holds what it held before.  Only slots `i < length`
can differ, so slot `i` still belongs to symbol `i`. -/
theorem rebuild_frame (km : Nat → Nat → Nat) (min_keycode max_keycode : Nat)
    (smileys : List smiley) (hok : ∀ x ∈ smileys, smiley_ok x) (hmax : max_keycode < 256) :
    ∃ smileys', update_key_presses km min_keycode max_keycode smileys = outcome.done smileys' ∧
      smileys'.length = smileys.length ∧
      ∀ (j : Nat) (s : smiley), smileys[j]? = some s →
        ∃ s', smileys'[j]? = some s' ∧ s'.name = s.name ∧ s'.sequence = s.sequence ∧
          s'.length = s.length ∧ s'.key_presses.length = s.key_presses.length ∧
          ∀ i, s.length ≤ i → s'.key_presses[i]? = s.key_presses[i]? := by
  obtain ⟨smileys', hrun, hrel⟩ :=
    update_key_presses_spec km min_keycode max_keycode hmax smileys hok
  refine ⟨smileys', hrun, (List.Forall₂.length_eq hrel).symm, ?_⟩
  intro j s hs
  obtain ⟨s', hs', n1, n2, n3, n4, hslots⟩ := forall₂_getElem? hrel j s hs
  exact ⟨s', hs', n1, n3, n2, n4, fun i hi => (hslots i).1 (Or.inr hi)⟩

/-- C11 at Scenario A with two registered smileys: the rebuild changes slots 0
and 1 of the smile and slot 0 of the grin (whose letter D has no match) and
nothing else. -/
theorem rebuild_frame_witness :
    (∀ x ∈ [smile ⟨7, 7⟩, grin ⟨9, 4⟩], smiley_ok x) ∧ 51 < 256 ∧
    (∃ smileys', update_key_presses layout_a 24 51 [smile ⟨7, 7⟩, grin ⟨9, 4⟩]
        = outcome.done smileys' ∧
      smileys'.length = [smile ⟨7, 7⟩, grin ⟨9, 4⟩].length ∧
      ∀ (j : Nat) (s : smiley), [smile ⟨7, 7⟩, grin ⟨9, 4⟩][j]? = some s →
        ∃ s', smileys'[j]? = some s' ∧ s'.name = s.name ∧ s'.sequence = s.sequence ∧
          s'.length = s.length ∧ s'.key_presses.length = s.key_presses.length ∧
          ∀ i, s.length ≤ i → s'.key_presses[i]? = s.key_presses[i]?) ∧
    update_key_presses layout_a 24 51 [smile ⟨7, 7⟩, grin ⟨9, 4⟩] = outcome.done
      [{ smile ⟨7, 7⟩ with
          key_presses := ⟨38, 0⟩ :: ⟨25, XCB_MOD_MASK_SHIFT⟩ :: List.replicate 30 ⟨7, 7⟩ },
       { grin ⟨9, 4⟩ with
          key_presses := ⟨38, 0⟩ :: List.replicate 31 ⟨9, 4⟩ }] :=
  ⟨registry_ok_pair (smile_ok _) (grin_ok _), by decide,
    rebuild_frame layout_a 24 51 [smile ⟨7, 7⟩, grin ⟨9, 4⟩]
      (registry_ok_pair (smile_ok _) (grin_ok _)) (by decide),
    by decide⟩

/-! ## C15: the exact winner of the scan -/

theorem char_to_keysym_high {b : Nat} (h1 : 128 ≤ b) (h2 : b ≤ 255) :
    char_to_keysym b = 0xFFFFFF00 + b := by
  unfold char_to_keysym
  have hb : b % 256 = b := Nat.mod_eq_of_lt (by omega)
  rw [hb, if_neg (by omega)]

theorem e_acute_ok (junk : key_press) : smiley_ok (e_acute junk) := by
  refine ⟨?_, ?_, ?_⟩ <;> simp [e_acute]

theorem layout_latin1_small (k l : Nat) : layout_latin1 k l < 0xFFFFFF80 := by
  unfold layout_latin1
  split_ifs <;> omega

/-- C16. With `char` signed, a symbol byte `b` with `128 ≤ b ≤ 255` is compared as
the keysym `0xFFFFFF00 + b`.  For a registry that stays inside its arrays, an
8-bit keycode range and a layout whose keysyms at every keycode of `[min, max]`
in columns 0 and 1 are below `0xFFFFFF80` (it may well map a key to `b` itself),
no lookup of the scan equals that keysym, `update_key_presses` returns, and the
slot of such a symbol holds what it held before. -/
theorem high_byte_never_resolved (km : Nat → Nat → Nat) (min_keycode max_keycode : Nat)
    (smileys : List smiley) (j : Nat) (s : smiley) (i b : Nat)
    (hok : ∀ x ∈ smileys, smiley_ok x) (hmax : max_keycode < 256)
    (hs : smileys[j]? = some s) (hi : i < s.length) (hch : s.sequence[i]? = some b)
    (hb1 : 128 ≤ b) (hb2 : b ≤ 255)
    (hsmall : ∀ k l, min_keycode ≤ k → k ≤ max_keycode → l < 2 → km k l < 0xFFFFFF80) :
    char_to_keysym b = 0xFFFFFF00 + b ∧
    (∀ k l, min_keycode ≤ k → k ≤ max_keycode → l < 2 → km k l ≠ char_to_keysym b) ∧
    ∃ smileys' s', update_key_presses km min_keycode max_keycode smileys = outcome.done smileys' ∧
      smileys'[j]? = some s' ∧ s'.key_presses[i]? = s.key_presses[i]? := by
  have hwide := char_to_keysym_high hb1 hb2
  have hnone : ∀ k l, min_keycode ≤ k → k ≤ max_keycode → l < 2 →
      km k l ≠ char_to_keysym b := by
    intro k l h1 h2 h3 heq
    have := hsmall k l h1 h2 h3
    rw [heq, hwide] at this
    omega
  obtain ⟨smileys', hrun, hall⟩ := update_slots km min_keycode max_keycode hmax smileys hok
  obtain ⟨s', hs', hrel⟩ := hall j s hs
  exact ⟨hwide, hnone, smileys', s', hrun, hs', smiley_rel_slot_kept hrel hi hch hnone⟩

/-- C16 at a Latin-1 layout: keycode 38 produces the keysym 0xE9 in column 0, the
registered symbol is the byte 0xE9, and its slot keeps `(7, 7)`. -/
theorem high_byte_never_resolved_witness :
    (∀ x ∈ [e_acute ⟨7, 7⟩], smiley_ok x) ∧ 51 < 256 ∧
    [e_acute ⟨7, 7⟩][0]? = some (e_acute ⟨7, 7⟩) ∧ 0 < (e_acute ⟨7, 7⟩).length ∧
    (e_acute ⟨7, 7⟩).sequence[0]? = some 233 ∧ 128 ≤ 233 ∧ 233 ≤ 255 ∧
    (∀ k l, 24 ≤ k → k ≤ 51 → l < 2 → layout_latin1 k l < 0xFFFFFF80) ∧
    (char_to_keysym 233 = 0xFFFFFF00 + 233 ∧
      (∀ k l, 24 ≤ k → k ≤ 51 → l < 2 → layout_latin1 k l ≠ char_to_keysym 233) ∧
      ∃ smileys' s', update_key_presses layout_latin1 24 51 [e_acute ⟨7, 7⟩]
          = outcome.done smileys' ∧
        smileys'[0]? = some s' ∧ s'.key_presses[0]? = (e_acute ⟨7, 7⟩).key_presses[0]?) ∧
    layout_latin1 38 0 = 233 ∧
    update_key_presses layout_latin1 24 51 [e_acute ⟨7, 7⟩] = outcome.done [e_acute ⟨7, 7⟩] :=
  ⟨registry_ok_singleton (e_acute_ok _), by decide, by decide, by decide, by decide,
    by decide, by decide, fun k l _ _ _ => layout_latin1_small k l,
    high_byte_never_resolved layout_latin1 24 51 [e_acute ⟨7, 7⟩] 0 (e_acute ⟨7, 7⟩) 0 233
      (registry_ok_singleton (e_acute_ok _)) (by decide) (by decide) (by decide) (by decide)
      (by decide) (by decide) (fun k l _ _ _ => layout_latin1_small k l),
    by decide, by decide⟩

/-! ## C14: the focus query without a reply -/

/-- C14, on the code.  When `xcb_get_input_focus_reply` returns a null pointer,
`send_smiley` reads `focus_reply->focus` to fill in the event: for every
registry, index and screen the run ends in a null dereference before any call is
dispatched; it does not return. -/
theorem send_smiley_null_reply_faults (smileys : List smiley) (root state0 idx : Nat) :
    send_smiley smileys none root state0 idx = outcome.fail fault.null_dereference ∧
    send_smiley [smile ⟨7, 7⟩] none 1 0 0 = outcome.fail fault.null_dereference :=
  ⟨rfl, rfl⟩

/-! ## C13: the rebuild stays within its iteration budget -/

/-- The recording loop computes what the keycode loop computes, looks up exactly
the keycodes `keycode .. hi` in increasing order, and leaves with the counter at
`hi + 1` (or where it started, when the range is empty). -/
theorem keycode_loop_probes_spec (km : Nat → Nat → Nat) (keysym lvl hi : Nat) (hhi : hi < 256) :
    ∀ (fuel keycode : Nat) (kp : key_press) (probes : List (Nat × Nat)),
      1 ≤ fuel → hi + 2 ≤ fuel + keycode →
      ∃ r, keycode_loop km keysym lvl hi fuel keycode kp = outcome.done r ∧
        keycode_loop_probes km keysym lvl hi fuel keycode kp probes = outcome.done
          (r, probes ++ (List.range' keycode (hi + 1 - keycode)).map (fun k => (k, lvl)),
            if keycode ≤ hi then hi + 1 else keycode) := by
  intro fuel
  induction fuel with
  | zero => intro _ _ _ h; omega
  | succ fuel ih =>
    intro keycode kp probes _ hf
    by_cases hle : keycode ≤ hi
    · have hw : (keycode + 1) % 65536 = keycode + 1 := Nat.mod_eq_of_lt (by omega)
      have hb : keycode % 256 = keycode := Nat.mod_eq_of_lt (by omega)
      obtain ⟨r, hr, hp⟩ := ih (keycode + 1)
        (if km keycode lvl = keysym then
          { keycode := keycode, modifiers := modifiers_of lvl } else kp)
        (probes ++ [(keycode, lvl)]) (by omega) (by omega)
      have hcount : hi + 1 - keycode = (hi + 1 - (keycode + 1)) + 1 := by omega
      have hexit : (if keycode + 1 ≤ hi then hi + 1 else keycode + 1) = hi + 1 := by
        split_ifs <;> omega
      refine ⟨r, ?_, ?_⟩
      · simp only [keycode_loop, hle, if_true, hw, hb]
        exact hr
      · simp only [keycode_loop_probes, hle, if_true, hw, hb]
        rw [hp, hexit, hcount, List.range'_succ, List.map_cons, List.append_assoc]
        rfl
    · have hzero : hi + 1 - keycode = 0 := by omega
      refine ⟨kp, by simp only [keycode_loop, hle, if_false], ?_⟩
      simp only [keycode_loop_probes, hle, if_false, hzero, List.range'_zero, List.map_nil,
        List.append_nil]

/-- Both columns: the scan for one symbol looks up the whole range in column 0,
then the whole range in column 1. -/
theorem keysym_index_loop_probes_spec (km : Nat → Nat → Nat) (keysym lo hi : Nat)
    (hhi : hi < 256) (kp : key_press) :
    ∃ r, keysym_index_loop km keysym lo hi kp = outcome.done r ∧
      keysym_index_loop_probes km keysym lo hi kp = outcome.done
        (r, (List.range' lo (hi + 1 - lo)).map (fun k => (k, 0))
          ++ (List.range' lo (hi + 1 - lo)).map (fun k => (k, 1))) := by
  obtain ⟨r0, h0, p0⟩ := keycode_loop_probes_spec km keysym 0 hi hhi keycode_fuel lo kp []
    (by unfold keycode_fuel; omega) (by unfold keycode_fuel; omega)
  obtain ⟨r1, h1, p1⟩ := keycode_loop_probes_spec km keysym 1 hi hhi keycode_fuel lo r0
    ([] ++ (List.range' lo (hi + 1 - lo)).map (fun k => (k, 0)))
    (by unfold keycode_fuel; omega) (by unfold keycode_fuel; omega)
  rw [List.nil_append] at p0 p1
  refine ⟨r1, by simp only [keysym_index_loop, h0, h1], ?_⟩
  simp only [keysym_index_loop_probes, p0, p1]

/-- The index loop never runs out of its budget, whatever the arrays hold and
however long they are. -/
theorem index_loop_in_budget (km : Nat → Nat → Nat) (lo hi : Nat) (hhi : hi < 256) :
    ∀ (fuel index : Nat) (s : smiley), 1 ≤ fuel → s.length + 1 ≤ fuel + index →
      s.length < 256 →
      index_loop km lo hi fuel index s ≠ outcome.fail fault.out_of_fuel := by
  intro fuel
  induction fuel with
  | zero => intro _ _ h; omega
  | succ fuel ih =>
    intro index s _ hf h8
    by_cases hlt : index < s.length
    · have hw : (index + 1) % 256 = index + 1 := Nat.mod_eq_of_lt (by omega)
      cases hch : s.sequence[index]? with
      | none =>
        simp only [index_loop, hlt, if_true, hch]
        intro h
        cases h
      | some ch =>
        cases hkp : s.key_presses[index]? with
        | none =>
          simp only [index_loop, hlt, if_true, hch, hkp]
          intro h
          cases h
        | some kp =>
          obtain ⟨r, hr, _⟩ := keysym_index_loop_spec km (char_to_keysym ch) lo hi hhi kp
          simp only [index_loop, hlt, if_true, hch, hkp, hr, hw]
          exact ih (index + 1) { s with key_presses := s.key_presses.set index r }
            (by omega) (by simpa using by omega) h8
    · simp only [index_loop, hlt, if_false]
      intro h
      cases h

/-- The registry loop never runs out of budget when every `length` is 8-bit. -/
theorem update_key_presses_in_budget (km : Nat → Nat → Nat) (lo hi : Nat) (hhi : hi < 256) :
    ∀ smileys : List smiley, (∀ s ∈ smileys, s.length < 256) →
      update_key_presses km lo hi smileys ≠ outcome.fail fault.out_of_fuel := by
  intro smileys
  induction smileys with
  | nil =>
    intro _ h
    cases h
  | cons s rest ih =>
    intro hlen
    have hs := index_loop_in_budget km lo hi hhi index_fuel 0 s
      (by unfold index_fuel; omega)
      (by have := hlen s (List.mem_cons_self _ _); unfold index_fuel; omega)
      (hlen s (List.mem_cons_self _ _))
    have hrest := ih (fun x hx => hlen x (List.mem_cons_of_mem _ hx))
    cases h1 : index_loop km lo hi index_fuel 0 s with
    | fail f =>
      simp only [update_key_presses, h1]
      intro h
      cases h
      exact hs h1
    | done s1 =>
      cases h2 : update_key_presses km lo hi rest with
      | fail f =>
        simp only [update_key_presses, h1, h2]
        intro h
        cases h
        exact hrest h2
      | done rest1 =>
        simp only [update_key_presses, h1, h2]
        intro h
        cases h

/-- The registry loop returns when every `length` is 8-bit and within the two
arrays it indexes. -/
theorem update_key_presses_returns (km : Nat → Nat → Nat) (lo hi : Nat) (hhi : hi < 256) :
    ∀ smileys : List smiley,
      (∀ s ∈ smileys, s.length < 256 ∧ s.length ≤ s.sequence.length ∧
        s.length ≤ s.key_presses.length) →
      ∃ smileys', update_key_presses km lo hi smileys = outcome.done smileys' := by
  intro smileys
  induction smileys with
  | nil => intro _; exact ⟨[], rfl⟩
  | cons s rest ih =>
    intro hin
    obtain ⟨q1, q2, q3⟩ := hin s (List.mem_cons_self _ _)
    obtain ⟨s', hs', _⟩ := index_loop_spec km lo hi hhi index_fuel 0 s
      (by unfold index_fuel; omega) (by unfold index_fuel; omega) q1 q2 q3
    obtain ⟨rest', hrest'⟩ := ih (fun x hx => hin x (List.mem_cons_of_mem _ hx))
    exact ⟨s' :: rest', by simp only [update_key_presses, hs', hrest']⟩

/-- On every input, the keycode loop is its recording version without the
record. -/
theorem keycode_loop_eq_fst (km : Nat → Nat → Nat) (keysym lvl hi : Nat) :
    ∀ (fuel keycode : Nat) (kp : key_press) (probes : List (Nat × Nat)),
      keycode_loop km keysym lvl hi fuel keycode kp
        = outcome_fst (keycode_loop_probes km keysym lvl hi fuel keycode kp probes) := by
  intro fuel
  induction fuel with
  | zero => intro _ _ _; rfl
  | succ fuel ih =>
    intro keycode kp probes
    by_cases hle : keycode ≤ hi
    · simp only [keycode_loop, keycode_loop_probes, hle, if_true]
      exact ih _ _ _
    · simp only [keycode_loop, keycode_loop_probes, hle, if_false]
      rfl

/-- On every input, the loop over the two columns is its recording version
without the record. -/
theorem keysym_index_loop_eq_fst (km : Nat → Nat → Nat) (keysym lo hi : Nat) (kp : key_press) :
    keysym_index_loop km keysym lo hi kp
      = outcome_fst (keysym_index_loop_probes km keysym lo hi kp) := by
  unfold keysym_index_loop keysym_index_loop_probes
  rw [keycode_loop_eq_fst km keysym 0 hi keycode_fuel lo kp []]
  cases h0 : keycode_loop_probes km keysym 0 hi keycode_fuel lo kp [] with
  | fail f => rfl
  | done x =>
    obtain ⟨kp0, probes0, c0⟩ := x
    simp only [outcome_fst]
    rw [keycode_loop_eq_fst km keysym 1 hi keycode_fuel lo kp0 probes0]
    cases h1 : keycode_loop_probes km keysym 1 hi keycode_fuel lo kp0 probes0 with
    | fail f => rfl
    | done y =>
      obtain ⟨kp1, probes1, c1⟩ := y
      rfl

/-- On every input, the index loop is its recording version without the
record. -/
theorem index_loop_eq_fst (km : Nat → Nat → Nat) (lo hi : Nat) :
    ∀ (fuel index : Nat) (s : smiley) (probes : List (Nat × Nat)),
      index_loop km lo hi fuel index s
        = outcome_fst (index_loop_probes km lo hi fuel index s probes) := by
  intro fuel
  induction fuel with
  | zero => intro _ _ _; rfl
  | succ fuel ih =>
    intro index s probes
    by_cases hlt : index < s.length
    · cases hch : s.sequence[index]? with
      | none =>
        simp only [index_loop, index_loop_probes, hlt, if_true, hch]
        rfl
      | some ch =>
        cases hkp : s.key_presses[index]? with
        | none =>
          simp only [index_loop, index_loop_probes, hlt, if_true, hch, hkp]
          rfl
        | some kp =>
          simp only [index_loop, index_loop_probes, hlt, if_true, hch, hkp]
          rw [keysym_index_loop_eq_fst km (char_to_keysym ch) lo hi kp]
          cases h : keysym_index_loop_probes km (char_to_keysym ch) lo hi kp with
          | fail f => rfl
          | done x =>
            obtain ⟨kp1, probes1⟩ := x
            simp only [outcome_fst]
            exact ih _ _ _
    · simp only [index_loop, index_loop_probes, hlt, if_false]
      rfl

/-- On every input, `update_key_presses` is its recording version without the
record. -/
theorem update_key_presses_eq_fst (km : Nat → Nat → Nat) (lo hi : Nat) :
    ∀ smileys : List smiley,
      update_key_presses km lo hi smileys
        = outcome_fst (update_key_presses_probes km lo hi smileys) := by
  intro smileys
  induction smileys with
  | nil => rfl
  | cons s rest ih =>
    simp only [update_key_presses, update_key_presses_probes]
    rw [index_loop_eq_fst km lo hi index_fuel 0 s [], ih]
    cases h1 : index_loop_probes km lo hi index_fuel 0 s [] with
    | fail f => rfl
    | done x =>
      obtain ⟨s1, probes1⟩ := x
      simp only [outcome_fst]
      cases h2 : update_key_presses_probes km lo hi rest with
      | fail f => rfl
      | done y =>
        obtain ⟨rest1, probes2⟩ := y
        rfl

/-- The recording index loop computes what the index loop computes and records,
for each symbol from `index` on, the lookups of one symbol. -/
theorem index_loop_probes_spec (km : Nat → Nat → Nat) (lo hi : Nat) (hhi : hi < 256) :
    ∀ (fuel index : Nat) (s : smiley) (probes : List (Nat × Nat)),
      1 ≤ fuel → s.length + 1 ≤ fuel + index →
      s.length < 256 → s.length ≤ s.sequence.length → s.length ≤ s.key_presses.length →
      ∃ s', index_loop km lo hi fuel index s = outcome.done s' ∧
        index_loop_probes km lo hi fuel index s probes
          = outcome.done (s', probes ++ smiley_probes lo hi (s.length - index)) := by
  intro fuel
  induction fuel with
  | zero => intro _ _ _ h; omega
  | succ fuel ih =>
    intro index s probes _ hf h8 hseq hkps
    by_cases hlt : index < s.length
    · have hw : (index + 1) % 256 = index + 1 := Nat.mod_eq_of_lt (by omega)
      have hch : s.sequence[index]? = some (s.sequence[index]) :=
        List.getElem?_eq_getElem (by omega)
      have hkp : s.key_presses[index]? = some (s.key_presses[index]) :=
        List.getElem?_eq_getElem (by omega)
      obtain ⟨r, hr, hp⟩ := keysym_index_loop_probes_spec km
        (char_to_keysym (s.sequence[index])) lo hi hhi (s.key_presses[index])
      obtain ⟨s', hs', hps'⟩ := ih (index + 1)
        { s with key_presses := s.key_presses.set index r }
        (probes ++ symbol_probes lo hi) (by omega) (by simpa using by omega)
        h8 hseq (by simpa using hkps)
      have hcount : s.length - index = (s.length - (index + 1)) + 1 := by omega
      refine ⟨s', ?_, ?_⟩
      · rw [← hs']
        simp only [index_loop, hlt, if_true, hch, hkp, hr, hw]
      · simp only [index_loop_probes, hlt, if_true, hch, hkp, hp, hw]
        rw [hcount, smiley_probes]
        simpa only [symbol_probes, List.append_assoc] using hps'
    · have hzero : s.length - index = 0 := by omega
      refine ⟨s, by simp only [index_loop, hlt, if_false], ?_⟩
      simp only [index_loop_probes, hlt, if_false, hzero, smiley_probes, List.append_nil]

/-- The recording rebuild computes what `update_key_presses` computes and
records the lookups expected for the registry. -/
theorem update_key_presses_probes_spec (km : Nat → Nat → Nat) (lo hi : Nat) (hhi : hi < 256) :
    ∀ smileys : List smiley,
      (∀ s ∈ smileys, s.length < 256 ∧ s.length ≤ s.sequence.length ∧
        s.length ≤ s.key_presses.length) →
      ∃ smileys', update_key_presses km lo hi smileys = outcome.done smileys' ∧
        update_key_presses_probes km lo hi smileys
          = outcome.done (smileys', registry_probes lo hi smileys) := by
  intro smileys
  induction smileys with
  | nil => intro _; exact ⟨[], rfl, rfl⟩
  | cons s rest ih =>
    intro hin
    obtain ⟨q1, q2, q3⟩ := hin s (List.mem_cons_self _ _)
    obtain ⟨s', hs', hps'⟩ := index_loop_probes_spec km lo hi hhi index_fuel 0 s []
      (by unfold index_fuel; omega) (by unfold index_fuel; omega) q1 q2 q3
    obtain ⟨rest', hrest', hprest'⟩ := ih (fun x hx => hin x (List.mem_cons_of_mem _ hx))
    refine ⟨s' :: rest', by simp only [update_key_presses, hs', hrest'], ?_⟩
    simp only [update_key_presses_probes, hps', hprest', List.nil_append, Nat.sub_zero,
      registry_probes]

theorem symbol_probes_length (lo hi : Nat) :
    (symbol_probes lo hi).length = 2 * (hi + 1 - lo) := by
  unfold symbol_probes
  rw [List.length_append, List.length_map, List.length_map, List.length_range']
  omega

theorem smiley_probes_length (lo hi : Nat) :
    ∀ n, (smiley_probes lo hi n).length = n * (2 * (hi + 1 - lo)) := by
  intro n
  induction n with
  | zero => simp [smiley_probes]
  | succ n ih =>
    rw [smiley_probes, List.length_append, symbol_probes_length, ih]
    generalize 2 * (hi + 1 - lo) = x
    rw [Nat.succ_mul]
    omega

theorem registry_probes_length (lo hi : Nat) :
    ∀ smileys : List smiley, (registry_probes lo hi smileys).length
      = (smileys.map (fun s => s.length)).sum * (2 * (hi + 1 - lo)) := by
  intro smileys
  induction smileys with
  | nil => simp [registry_probes]
  | cons s rest ih =>
    rw [registry_probes, List.length_append, smiley_probes_length, ih, List.map_cons,
      List.sum_cons, Nat.add_mul]

/-- The pairs looked up for one symbol are exactly the keycodes of the range in
columns 0 and 1. -/
theorem mem_probes_iff (lo hi k l : Nat) :
    (k, l) ∈ (List.range' lo (hi + 1 - lo)).map (fun k => (k, 0))
        ++ (List.range' lo (hi + 1 - lo)).map (fun k => (k, 1))
      ↔ lo ≤ k ∧ k ≤ hi ∧ l < 2 := by
  simp only [List.mem_append, List.mem_map, List.mem_range'_1, Prod.mk.injEq]
  constructor
  · rintro (⟨a, ⟨h1, h2⟩, h3, h4⟩ | ⟨a, ⟨h1, h2⟩, h3, h4⟩) <;> omega
  · rintro ⟨h1, h2, h3⟩
    have hl : l = 0 ∨ l = 1 := by omega
    rcases hl with hl | hl
    · exact Or.inl ⟨k, ⟨h1, by omega⟩, rfl, hl.symm⟩
    · exact Or.inr ⟨k, ⟨h1, by omega⟩, rfl, hl.symm⟩

/-- C13. For every layout, every registry whose smileys have an 8-bit `length`
and every keycode range with an 8-bit `max_keycode` (255 included):
`update_key_presses` never exhausts the iteration budget of one of its loops,
and it is, on every input, the run that records its lookups with the record
dropped.  When every `length` stays within the arrays it indexes,
`update_key_presses` returns, and the recording run returns the same registry
and has looked up, for each smiley in registry order and for each of its `length`
symbols, the pairs of `symbol_probes`: `(k, 0)` for `k = min .. max`, then
`(k, 1)` for `k = min .. max`.  That is each pair `(k, col)` with `min ≤ k ≤ max`
and `col < 2` once per symbol, `2 * (max - min + 1)` lookups per symbol when
`min ≤ max` and none when `min > max`.  Each keycode loop computes its result
and is left with the 16-bit counter at `max + 1` (256 for `max = 255`, not
wrapped to 0), or at `min` when `min > max`. -/
theorem rebuild_terminates (km : Nat → Nat → Nat) (min_keycode max_keycode : Nat)
    (smileys : List smiley) (hmax : max_keycode < 256)
    (hlen : ∀ s ∈ smileys, s.length < 256) :
    update_key_presses km min_keycode max_keycode smileys ≠ outcome.fail fault.out_of_fuel ∧
    update_key_presses km min_keycode max_keycode smileys
      = outcome_fst (update_key_presses_probes km min_keycode max_keycode smileys) ∧
    ((∀ s ∈ smileys, s.length ≤ s.sequence.length ∧ s.length ≤ s.key_presses.length) →
      ∃ smileys', update_key_presses km min_keycode max_keycode smileys
          = outcome.done smileys' ∧
        update_key_presses_probes km min_keycode max_keycode smileys
          = outcome.done (smileys', registry_probes min_keycode max_keycode smileys) ∧
        (min_keycode ≤ max_keycode →
          (registry_probes min_keycode max_keycode smileys).length
            = (smileys.map (fun s => s.length)).sum * (2 * (max_keycode - min_keycode + 1))) ∧
        (max_keycode < min_keycode →
          registry_probes min_keycode max_keycode smileys = [])) ∧
    (∀ keysym kp, ∃ r probes,
      keysym_index_loop km keysym min_keycode max_keycode kp = outcome.done r ∧
      keysym_index_loop_probes km keysym min_keycode max_keycode kp
        = outcome.done (r, probes) ∧
      probes = symbol_probes min_keycode max_keycode ∧
      (min_keycode ≤ max_keycode → probes.length = 2 * (max_keycode - min_keycode + 1)) ∧
      (max_keycode < min_keycode → probes = []) ∧
      probes.Nodup ∧
      ∀ k l, (k, l) ∈ probes ↔ min_keycode ≤ k ∧ k ≤ max_keycode ∧ l < 2) ∧
    (∀ keysym lvl kp, ∃ r probes,
      keycode_loop km keysym lvl max_keycode keycode_fuel min_keycode kp = outcome.done r ∧
      keycode_loop_probes km keysym lvl max_keycode keycode_fuel min_keycode kp []
        = outcome.done (r, probes,
            if min_keycode ≤ max_keycode then max_keycode + 1 else min_keycode)) := by
  refine ⟨update_key_presses_in_budget km min_keycode max_keycode hmax smileys hlen,
    update_key_presses_eq_fst km min_keycode max_keycode smileys, ?_, ?_, ?_⟩
  · intro hin
    obtain ⟨smileys', h1, h2⟩ :=
      update_key_presses_probes_spec km min_keycode max_keycode hmax smileys
        (fun s hs => ⟨hlen s hs, (hin s hs).1, (hin s hs).2⟩)
    refine ⟨smileys', h1, h2, ?_, ?_⟩
    · intro hle
      rw [registry_probes_length]
      have hcount : max_keycode + 1 - min_keycode = max_keycode - min_keycode + 1 := by omega
      rw [hcount]
    · intro hlt
      apply List.eq_nil_of_length_eq_zero
      rw [registry_probes_length]
      have hzero : max_keycode + 1 - min_keycode = 0 := by omega
      rw [hzero, Nat.mul_zero]
  · intro keysym kp
    obtain ⟨r, hr, hp⟩ :=
      keysym_index_loop_probes_spec km keysym min_keycode max_keycode hmax kp
    refine ⟨r, _, hr, hp, rfl, ?_, ?_, ?_, mem_probes_iff min_keycode max_keycode⟩
    · intro hle
      rw [List.length_append, List.length_map, List.length_map, List.length_range']
      omega
    · intro hlt
      have hzero : max_keycode + 1 - min_keycode = 0 := by omega
      rw [hzero]
      rfl
    · rw [List.nodup_append]
      refine ⟨?_, ?_, ?_⟩
      · exact (List.nodup_range' _ _).map (fun a b h => congrArg Prod.fst h)
      · exact (List.nodup_range' _ _).map (fun a b h => congrArg Prod.fst h)
      · intro x h0 h1
        rw [List.mem_map] at h0 h1
        obtain ⟨a, _, ha⟩ := h0
        obtain ⟨b, _, hb⟩ := h1
        rw [← ha] at hb
        have := congrArg Prod.snd hb
        simp at this
  · intro keysym lvl kp
    obtain ⟨r, hr, hp⟩ := keycode_loop_probes_spec km keysym lvl max_keycode hmax keycode_fuel
      min_keycode kp [] (by unfold keycode_fuel; omega) (by unfold keycode_fuel; omega)
    exact ⟨r, _, hr, hp⟩

/-- C13 at `max_keycode = 255`, `min_keycode = 252`, a layout with the colon at
keycode 254 and the closing parenthesis at keycode 255 with shift, and the
smile: four keycodes, so eight lookups per symbol and sixteen for the run, which
resolves the smile to `[(254, none), (255, shift)]`; the counter leaves each
keycode loop at 256. -/
theorem rebuild_terminates_witness :
    255 < 256 ∧ (∀ s ∈ [smile ⟨7, 7⟩], s.length < 256) ∧
    (update_key_presses layout_high 252 255 [smile ⟨7, 7⟩] ≠ outcome.fail fault.out_of_fuel ∧
      update_key_presses layout_high 252 255 [smile ⟨7, 7⟩]
        = outcome_fst (update_key_presses_probes layout_high 252 255 [smile ⟨7, 7⟩]) ∧
      ((∀ s ∈ [smile ⟨7, 7⟩], s.length ≤ s.sequence.length ∧ s.length ≤ s.key_presses.length) →
        ∃ smileys', update_key_presses layout_high 252 255 [smile ⟨7, 7⟩]
            = outcome.done smileys' ∧
          update_key_presses_probes layout_high 252 255 [smile ⟨7, 7⟩]
            = outcome.done (smileys', registry_probes 252 255 [smile ⟨7, 7⟩]) ∧
          (252 ≤ 255 →
            (registry_probes 252 255 [smile ⟨7, 7⟩]).length
              = ([smile ⟨7, 7⟩].map (fun s => s.length)).sum * (2 * (255 - 252 + 1))) ∧
          (255 < 252 → registry_probes 252 255 [smile ⟨7, 7⟩] = [])) ∧
      (∀ keysym kp, ∃ r probes,
        keysym_index_loop layout_high keysym 252 255 kp = outcome.done r ∧
        keysym_index_loop_probes layout_high keysym 252 255 kp = outcome.done (r, probes) ∧
        probes = symbol_probes 252 255 ∧
        (252 ≤ 255 → probes.length = 2 * (255 - 252 + 1)) ∧
        (255 < 252 → probes = []) ∧
        probes.Nodup ∧
        ∀ k l, (k, l) ∈ probes ↔ 252 ≤ k ∧ k ≤ 255 ∧ l < 2) ∧
      (∀ keysym lvl kp, ∃ r probes,
        keycode_loop layout_high keysym lvl 255 keycode_fuel 252 kp = outcome.done r ∧
        keycode_loop_probes layout_high keysym lvl 255 keycode_fuel 252 kp []
          = outcome.done (r, probes, if 252 ≤ 255 then 255 + 1 else 252))) ∧
    keycode_loop_probes layout_high 58 0 255 keycode_fuel 252 ⟨7, 7⟩ []
      = outcome.done (⟨254, 0⟩, [(252, 0), (253, 0), (254, 0), (255, 0)], 256) ∧
    update_key_presses layout_high 252 255 [smile ⟨7, 7⟩] = outcome.done
      [{ smile ⟨7, 7⟩ with
          key_presses := ⟨254, 0⟩ :: ⟨255, XCB_MOD_MASK_SHIFT⟩ :: List.replicate 30 ⟨7, 7⟩ }] ∧
    update_key_presses_probes layout_high 252 255 [smile ⟨7, 7⟩] = outcome.done
      ([{ smile ⟨7, 7⟩ with
          key_presses := ⟨254, 0⟩ :: ⟨255, XCB_MOD_MASK_SHIFT⟩ :: List.replicate 30 ⟨7, 7⟩ }],
       [(252, 0), (253, 0), (254, 0), (255, 0), (252, 1), (253, 1), (254, 1), (255, 1),
        (252, 0), (253, 0), (254, 0), (255, 0), (252, 1), (253, 1), (254, 1), (255, 1)]) ∧
    update_key_presses_probes layout_high 255 252 [smile ⟨7, 7⟩]
      = outcome.done ([smile ⟨7, 7⟩], []) :=
  have hlen : ∀ s ∈ [smile ⟨7, 7⟩], s.length < 256 := by
    intro s hs
    rw [List.mem_singleton] at hs
    rw [hs]
    decide
  ⟨by decide, hlen, rebuild_terminates layout_high 252 255 [smile ⟨7, 7⟩] (by decide) hlen,
    by decide, by decide, by decide, by decide⟩

/-! ## C12: injection reads, and what its events depend on -/

/-- The loop of `send_smiley` on the globals hands the globals back as they are
and dispatches one whole event per slot from `index` on. -/
theorem send_loop_globals_spec (g : globals) (focus idx : Nat) (s : smiley)
    (hs : g.smileys[idx]? = some s) (h8 : s.length < 256)
    (hkps : s.length ≤ s.key_presses.length) :
    ∀ (fuel index : Nat) (event : xcb_key_press_event_full) (calls : List xcb_call_full),
      1 ≤ fuel → s.length + 1 ≤ fuel + index →
      send_loop_globals focus idx fuel g index event calls = outcome.done
        (g, calls ++ ((s.key_presses.take s.length).drop index).map (fun kp =>
          xcb_call_full.send_event false focus XCB_EVENT_MASK_KEY_PRESS
            { event with detail := kp.keycode, state := kp.modifiers })) := by
  intro fuel
  induction fuel with
  | zero => intro _ _ _ h; omega
  | succ fuel ih =>
    intro index event calls _ hf
    by_cases hlt : index < s.length
    · have hw : (index + 1) % 256 = index + 1 := Nat.mod_eq_of_lt (by omega)
      have hkp : s.key_presses[index]? = some (s.key_presses[index]) :=
        List.getElem?_eq_getElem (by omega)
      have hlen : index < (s.key_presses.take s.length).length := by
        rw [List.length_take]; omega
      have hdrop : (s.key_presses.take s.length).drop index
          = s.key_presses[index] :: (s.key_presses.take s.length).drop (index + 1) := by
        rw [List.drop_eq_getElem_cons hlen, List.getElem_take]
      have hnext := ih (index + 1)
        { event with detail := (s.key_presses[index]).keycode,
                     state := (s.key_presses[index]).modifiers }
        (calls ++ [xcb_call_full.send_event false focus XCB_EVENT_MASK_KEY_PRESS
          { event with detail := (s.key_presses[index]).keycode,
                       state := (s.key_presses[index]).modifiers }]) (by omega) (by omega)
      simp only [send_loop_globals, hs, hlt, if_true, hkp, hw]
      rw [hdrop, List.map_cons, hnext, List.append_assoc]
      rfl
    · have hnil : (s.key_presses.take s.length).drop index = [] := by
        apply List.drop_eq_nil_of_le
        rw [List.length_take]; omega
      simp only [send_loop_globals, hs, hlt, if_false, hnil, List.map_nil, List.append_nil]

/-- The whole of `send_smiley` on the globals, when the focus query has a reply
and the chosen smiley stays inside its arrays. -/
theorem send_smiley_globals_spec (g : globals) (focus idx : Nat)
    (event0 : xcb_key_press_event_full) (s : smiley)
    (hs : g.smileys[idx]? = some s) (hlen : s.length ≤ 32) (hkps : s.key_presses.length = 32) :
    send_smiley_globals g (some focus) event0 idx = outcome.done
      (g, xcb_call_full.get_input_focus ::
        ((s.key_presses.take s.length).map (fun kp =>
          xcb_call_full.send_event false focus XCB_EVENT_MASK_KEY_PRESS
            (press_event_full event0 focus g.screen_root kp))
        ++ [xcb_call_full.flush])) := by
  have h := send_loop_globals_spec g focus idx s hs (by omega) (by omega) index_fuel 0
    { event0 with response_type := XCB_KEY_PRESS, detail := 52, root := g.screen_root,
                  event := focus, child := XCB_NONE } [xcb_call_full.get_input_focus]
    (by unfold index_fuel; omega) (by unfold index_fuel; omega)
  simp only [send_smiley_globals, h, List.drop_zero]
  rfl

/-- On every input, the loop of `send_smiley` is its version on the globals seen
through the six assigned fields. -/
theorem send_loop_eq_view (g : globals) (focus idx : Nat) (s : smiley)
    (hs : g.smileys[idx]? = some s) :
    ∀ (fuel index : Nat) (event : xcb_key_press_event_full) (calls : List xcb_call_full),
      send_loop focus s fuel index (event_view event) (calls.map call_view)
        = calls_view (send_loop_globals focus idx fuel g index event calls) := by
  intro fuel
  induction fuel with
  | zero => intro _ _ _; rfl
  | succ fuel ih =>
    intro index event calls
    by_cases hlt : index < s.length
    · cases hkp : s.key_presses[index]? with
      | none =>
        simp only [send_loop, send_loop_globals, hs, hlt, if_true, hkp]
        rfl
      | some kp =>
        have hnext := ih ((index + 1) % 256)
          { event with detail := kp.keycode, state := kp.modifiers }
          (calls ++ [xcb_call_full.send_event false focus XCB_EVENT_MASK_KEY_PRESS
            { event with detail := kp.keycode, state := kp.modifiers }])
        rw [List.map_append] at hnext
        simp only [send_loop, send_loop_globals, hs, hlt, if_true, hkp]
        exact hnext
    · simp only [send_loop, send_loop_globals, hs, hlt, if_false]
      rfl

theorem send_loop_globals_no_smiley (g : globals) (focus idx : Nat)
    (hs : g.smileys[idx]? = none) (fuel index : Nat) (event : xcb_key_press_event_full)
    (calls : List xcb_call_full) :
    send_loop_globals focus idx (fuel + 1) g index event calls
      = outcome.fail fault.out_of_bounds := by
  simp only [send_loop_globals, hs]

/-- On every input, `send_smiley` is `send_smiley` on the globals seen through
the six assigned fields. -/
theorem send_smiley_eq_view (g : globals) (focus_reply : Option Nat)
    (event0 : xcb_key_press_event_full) (idx : Nat) :
    send_smiley g.smileys focus_reply g.screen_root event0.state idx
      = calls_view (send_smiley_globals g focus_reply event0 idx) := by
  cases focus_reply with
  | none => rfl
  | some focus =>
    cases hs : g.smileys[idx]? with
    | none =>
      have hloop := send_loop_globals_no_smiley g focus idx hs 255 0
        { event0 with response_type := XCB_KEY_PRESS, detail := 52, root := g.screen_root,
                      event := focus, child := XCB_NONE } [xcb_call_full.get_input_focus]
      have hfuel : index_fuel = 255 + 1 := rfl
      simp only [send_smiley, send_smiley_globals, hs, hfuel, hloop]
      rfl
    | some s =>
      have hloop := send_loop_eq_view g focus idx s hs index_fuel 0
        { event0 with response_type := XCB_KEY_PRESS, detail := 52, root := g.screen_root,
                      event := focus, child := XCB_NONE } [xcb_call_full.get_input_focus]
      have hleft : send_smiley g.smileys (some focus) g.screen_root event0.state idx
          = match send_loop focus s index_fuel 0
              (event_view { event0 with response_type := XCB_KEY_PRESS, detail := 52,
                                        root := g.screen_root, event := focus,
                                        child := XCB_NONE })
              ([xcb_call_full.get_input_focus].map call_view) with
            | outcome.fail f => outcome.fail f
            | outcome.done calls => outcome.done (calls ++ [xcb_call.flush]) := by
        simp only [send_smiley, hs]
        rfl
      rw [hleft, hloop]
      simp only [send_smiley_globals]
      cases h : send_loop_globals focus idx index_fuel g 0
          { event0 with response_type := XCB_KEY_PRESS, detail := 52, root := g.screen_root,
                        event := focus, child := XCB_NONE } [xcb_call_full.get_input_focus] with
      | fail f => rfl
      | done x =>
        obtain ⟨g1, calls⟩ := x
        simp only [calls_view, List.map_append]
        rfl

/-- Whenever the loop of `send_smiley` returns, it returns the globals it was
given. -/
theorem send_loop_globals_frame (focus idx : Nat) :
    ∀ (fuel : Nat) (g : globals) (index : Nat) (event : xcb_key_press_event_full)
      (calls : List xcb_call_full) (g' : globals) (calls' : List xcb_call_full),
      send_loop_globals focus idx fuel g index event calls = outcome.done (g', calls') →
      g' = g := by
  intro fuel
  induction fuel with
  | zero =>
    intro g index event calls g' calls' h
    cases h
  | succ fuel ih =>
    intro g index event calls g' calls' h
    cases hs : g.smileys[idx]? with
    | none =>
      simp only [send_loop_globals, hs] at h
      cases h
    | some s =>
      by_cases hlt : index < s.length
      · cases hkp : s.key_presses[index]? with
        | none =>
          simp only [send_loop_globals, hs, hlt, if_true, hkp] at h
          cases h
        | some kp =>
          simp only [send_loop_globals, hs, hlt, if_true, hkp] at h
          exact ih g _ _ _ g' calls' h
      · simp only [send_loop_globals, hs, hlt, if_false] at h
        cases h
        rfl

/-- Whenever `send_smiley` returns, whatever the registry, the index, the focus
reply and the entry content of `event`, it returns the globals it was given. -/
theorem send_smiley_globals_frame (g : globals) (focus_reply : Option Nat)
    (event0 : xcb_key_press_event_full) (idx : Nat) (g' : globals)
    (calls : List xcb_call_full)
    (h : send_smiley_globals g focus_reply event0 idx = outcome.done (g', calls)) :
    g' = g := by
  cases focus_reply with
  | none => cases h
  | some focus =>
    simp only [send_smiley_globals] at h
    cases hl : send_loop_globals focus idx index_fuel g 0
        { event0 with response_type := XCB_KEY_PRESS, detail := 52, root := g.screen_root,
                      event := focus, child := XCB_NONE } [xcb_call_full.get_input_focus] with
    | fail f =>
      rw [hl] at h
      cases h
    | done x =>
      obtain ⟨g1, calls1⟩ := x
      rw [hl] at h
      simp only at h
      cases h
      exact send_loop_globals_frame focus idx index_fuel g 0 _ _ g' calls1 hl

/-- The fields that `send_smiley` never assigns are all that a dispatched event
keeps of the content of `event` on entry. -/
theorem press_event_full_congr {e1 e2 : xcb_key_press_event_full} (focus root : Nat)
    (kp : key_press)
    (hev : e2.sequence = e1.sequence ∧ e2.time = e1.time ∧ e2.root_x = e1.root_x ∧
      e2.root_y = e1.root_y ∧ e2.event_x = e1.event_x ∧ e2.event_y = e1.event_y ∧
      e2.same_screen = e1.same_screen ∧ e2.pad0 = e1.pad0) :
    press_event_full e2 focus root kp = press_event_full e1 focus root kp := by
  obtain ⟨a1, a2, a3, a4, a5, a6, a7, a8⟩ := hev
  unfold press_event_full
  simp only [a1, a2, a3, a4, a5, a6, a7, a8]

/-- C12 as stated fails.  Two runs of `send_smiley` on the same registry, under
the same layout and with the same focus window, dispatch different events when
`screen->root` differs (1 against 2), and likewise when a field of the local
`event` that the function never assigns differs on entry (`time`, 14 against
99): the events are not a function of the stored key presses and the focus
window only.  The root already tells the two runs apart in the six assigned
fields. -/
theorem send_smiley_events_not_slots_and_focus_only :
    globals_root2.smileys = globals_a.smileys ∧
    (∃ calls1 calls2,
      send_smiley_globals globals_a (some 9) event_junk 0 = outcome.done (globals_a, calls1) ∧
      send_smiley_globals globals_root2 (some 9) event_junk 0
        = outcome.done (globals_root2, calls2) ∧
      calls1 ≠ calls2) ∧
    (∃ calls1 calls3,
      send_smiley_globals globals_a (some 9) event_junk 0 = outcome.done (globals_a, calls1) ∧
      send_smiley_globals globals_a (some 9) { event_junk with time := 99 } 0
        = outcome.done (globals_a, calls3) ∧
      calls1 ≠ calls3) ∧
    send_smiley globals_a.smileys (some 9) 1 0 0
      ≠ send_smiley globals_a.smileys (some 9) 2 0 0 :=
  ⟨rfl,
    ⟨_, _, send_smiley_globals_spec globals_a 9 0 event_junk (resolved_smile ⟨7, 7⟩) rfl
        (by decide) (by decide),
      send_smiley_globals_spec globals_root2 9 0 event_junk (resolved_smile ⟨7, 7⟩) rfl
        (by decide) (by decide),
      by decide⟩,
    ⟨_, _, send_smiley_globals_spec globals_a 9 0 event_junk (resolved_smile ⟨7, 7⟩) rfl
        (by decide) (by decide),
      send_smiley_globals_spec globals_a 9 0 { event_junk with time := 99 }
        (resolved_smile ⟨7, 7⟩) rfl (by decide) (by decide),
      by decide⟩,
    by decide⟩

/-- C12, amended.  Take two states of the globals with the same `screen->root`,
whose registries hold at index `idx` smileys with the same `length ≤ 32` and the
same slots below `length`; the layouts, the keycode ranges, every other
registered smiley, and the name, symbols and remaining slots of the chosen one
may all differ.  Let the local `event` hold on entry contents that agree in the
eight fields the function never assigns.  With the focus query answered by the
same window, `send_smiley` returns in both states, hands back each state as it
was, and makes the same list of calls: the focus query, one send-event call per
slot below `length` whose event is `press_event_full` of the entry content, the
focus window, `screen->root` and the stored key press, and one flush.  Cut down to
the six assigned fields these are the calls of `send_smiley`.  Moreover, for
every focus reply, index and entry content of `event`, a run that returns
returns the globals it was given, and `send_smiley` is that run seen through the
six assigned fields. -/
theorem send_smiley_read_only (g1 g2 : globals) (focus idx : Nat)
    (event1 event2 : xcb_key_press_event_full) (s1 s2 : smiley)
    (hs1 : g1.smileys[idx]? = some s1) (hs2 : g2.smileys[idx]? = some s2)
    (hlen1 : s1.length ≤ 32) (hk1 : s1.key_presses.length = 32)
    (hk2 : s2.key_presses.length = 32) (hlen : s2.length = s1.length)
    (hslots : ∀ i, i < s1.length → s2.key_presses[i]? = s1.key_presses[i]?)
    (hroot : g2.screen_root = g1.screen_root)
    (hev : event2.sequence = event1.sequence ∧ event2.time = event1.time ∧
      event2.root_x = event1.root_x ∧ event2.root_y = event1.root_y ∧
      event2.event_x = event1.event_x ∧ event2.event_y = event1.event_y ∧
      event2.same_screen = event1.same_screen ∧ event2.pad0 = event1.pad0) :
    ∃ calls, send_smiley_globals g1 (some focus) event1 idx = outcome.done (g1, calls) ∧
      send_smiley_globals g2 (some focus) event2 idx = outcome.done (g2, calls) ∧
      calls = xcb_call_full.get_input_focus ::
        ((s1.key_presses.take s1.length).map (fun kp =>
          xcb_call_full.send_event false focus XCB_EVENT_MASK_KEY_PRESS
            (press_event_full event1 focus g1.screen_root kp))
        ++ [xcb_call_full.flush]) ∧
      send_smiley g1.smileys (some focus) g1.screen_root event1.state idx
        = outcome.done (calls.map call_view) ∧
      (∀ (focus_reply : Option Nat) (event0 : xcb_key_press_event_full) (i : Nat)
        (g' : globals) (calls' : List xcb_call_full),
        send_smiley_globals g1 focus_reply event0 i = outcome.done (g', calls') → g' = g1) ∧
      (∀ (focus_reply : Option Nat) (event0 : xcb_key_press_event_full) (i : Nat),
        send_smiley g1.smileys focus_reply g1.screen_root event0.state i
          = calls_view (send_smiley_globals g1 focus_reply event0 i)) := by
  have h1 := send_smiley_globals_spec g1 focus idx event1 s1 hs1 hlen1 hk1
  have h2 := send_smiley_globals_spec g2 focus idx event2 s2 hs2
    (by rw [hlen]; exact hlen1) hk2
  have h3 := send_smiley_spec g1.smileys focus g1.screen_root event1.state idx s1 hs1 hlen1 hk1
  have htake : s2.key_presses.take s2.length = s1.key_presses.take s1.length := by
    apply List.ext_getElem?
    intro n
    rw [List.getElem?_take, List.getElem?_take, hlen]
    by_cases hn : n < s1.length
    · rw [if_pos hn, if_pos hn, hslots n hn]
    · rw [if_neg hn, if_neg hn]
  have hfun : (fun kp => xcb_call_full.send_event false focus XCB_EVENT_MASK_KEY_PRESS
        (press_event_full event2 focus g2.screen_root kp))
      = (fun kp => xcb_call_full.send_event false focus XCB_EVENT_MASK_KEY_PRESS
        (press_event_full event1 focus g1.screen_root kp)) := by
    funext kp
    rw [hroot, press_event_full_congr focus g1.screen_root kp hev]
  rw [htake, hfun] at h2
  refine ⟨_, h1, h2, rfl, ?_,
    fun fr ev i g' c h => send_smiley_globals_frame g1 fr ev i g' c h,
    fun fr ev i => send_smiley_eq_view g1 fr ev i⟩
  rw [h3, List.map_cons, List.map_append, List.map_map]
  rfl

/-- C12 amended, at two states that share only `screen->root` and the two
resolved slots of the smile (layouts A and B, different ranges, different second
smileys, different unused slots), with entry contents of `event` that differ in
the assigned fields `detail` and `state` only. -/
theorem send_smiley_read_only_witness :
    globals_a.smileys[0]? = some (resolved_smile ⟨7, 7⟩) ∧
    globals_b.smileys[0]? = some (resolved_smile ⟨3, 3⟩) ∧
    (resolved_smile ⟨7, 7⟩).length ≤ 32 ∧ (resolved_smile ⟨7, 7⟩).key_presses.length = 32 ∧
    (resolved_smile ⟨3, 3⟩).key_presses.length = 32 ∧
    (resolved_smile ⟨3, 3⟩).length = (resolved_smile ⟨7, 7⟩).length ∧
    (∀ i, i < (resolved_smile ⟨7, 7⟩).length →
      (resolved_smile ⟨3, 3⟩).key_presses[i]? = (resolved_smile ⟨7, 7⟩).key_presses[i]?) ∧
    globals_b.screen_root = globals_a.screen_root ∧
    (({ event_junk with detail := 1, state := 6 } : xcb_key_press_event_full).sequence
        = event_junk.sequence ∧
      ({ event_junk with detail := 1, state := 6 } : xcb_key_press_event_full).time
        = event_junk.time ∧
      ({ event_junk with detail := 1, state := 6 } : xcb_key_press_event_full).root_x
        = event_junk.root_x ∧
      ({ event_junk with detail := 1, state := 6 } : xcb_key_press_event_full).root_y
        = event_junk.root_y ∧
      ({ event_junk with detail := 1, state := 6 } : xcb_key_press_event_full).event_x
        = event_junk.event_x ∧
      ({ event_junk with detail := 1, state := 6 } : xcb_key_press_event_full).event_y
        = event_junk.event_y ∧
      ({ event_junk with detail := 1, state := 6 } : xcb_key_press_event_full).same_screen
        = event_junk.same_screen ∧
      ({ event_junk with detail := 1, state := 6 } : xcb_key_press_event_full).pad0
        = event_junk.pad0) ∧
    (∃ calls, send_smiley_globals globals_a (some 9) event_junk 0
        = outcome.done (globals_a, calls) ∧
      send_smiley_globals globals_b (some 9) { event_junk with detail := 1, state := 6 } 0
        = outcome.done (globals_b, calls) ∧
      calls = xcb_call_full.get_input_focus ::
        (((resolved_smile ⟨7, 7⟩).key_presses.take (resolved_smile ⟨7, 7⟩).length).map (fun kp =>
          xcb_call_full.send_event false 9 XCB_EVENT_MASK_KEY_PRESS
            (press_event_full event_junk 9 globals_a.screen_root kp))
        ++ [xcb_call_full.flush]) ∧
      send_smiley globals_a.smileys (some 9) globals_a.screen_root event_junk.state 0
        = outcome.done (calls.map call_view) ∧
      (∀ (focus_reply : Option Nat) (event0 : xcb_key_press_event_full) (i : Nat)
        (g' : globals) (calls' : List xcb_call_full),
        send_smiley_globals globals_a focus_reply event0 i = outcome.done (g', calls') →
        g' = globals_a) ∧
      (∀ (focus_reply : Option Nat) (event0 : xcb_key_press_event_full) (i : Nat),
        send_smiley globals_a.smileys focus_reply globals_a.screen_root event0.state i
          = calls_view (send_smiley_globals globals_a focus_reply event0 i))) ∧
    (xcb_call_full.get_input_focus ::
        (((resolved_smile ⟨7, 7⟩).key_presses.take (resolved_smile ⟨7, 7⟩).length).map (fun kp =>
          xcb_call_full.send_event false 9 XCB_EVENT_MASK_KEY_PRESS
            (press_event_full event_junk 9 globals_a.screen_root kp))
        ++ [xcb_call_full.flush]))
      = [xcb_call_full.get_input_focus,
         xcb_call_full.send_event false 9 XCB_EVENT_MASK_KEY_PRESS
           { response_type := XCB_KEY_PRESS, detail := 38, sequence := 13, time := 14,
             root := 1, event := 9, child := XCB_NONE, root_x := -18, root_y := 19,
             event_x := 20, event_y := 21, state := 0, same_screen := 23, pad0 := 24 },
         xcb_call_full.send_event false 9 XCB_EVENT_MASK_KEY_PRESS
           { response_type := XCB_KEY_PRESS, detail := 25, sequence := 13, time := 14,
             root := 1, event := 9, child := XCB_NONE, root_x := -18, root_y := 19,
             event_x := 20, event_y := 21, state := XCB_MOD_MASK_SHIFT, same_screen := 23,
             pad0 := 24 },
         xcb_call_full.flush] :=
  have hslots : ∀ i, i < (resolved_smile ⟨7, 7⟩).length →
      (resolved_smile ⟨3, 3⟩).key_presses[i]? = (resolved_smile ⟨7, 7⟩).key_presses[i]? := by
    intro i hi
    have hi2 : i < 2 := hi
    have hcases : i = 0 ∨ i = 1 := by omega
    rcases hcases with h | h <;> subst h <;> rfl
  ⟨by decide, by decide, by decide, by decide, by decide, by decide, hslots, by decide,
    ⟨rfl, rfl, rfl, rfl, rfl, rfl, rfl, rfl⟩,
    send_smiley_read_only globals_a globals_b 9 0 event_junk
      { event_junk with detail := 1, state := 6 } (resolved_smile ⟨7, 7⟩)
      (resolved_smile ⟨3, 3⟩) (by decide) (by decide) (by decide) (by decide) (by decide)
      (by decide) hslots (by decide) ⟨rfl, rfl, rfl, rfl, rfl, rfl, rfl, rfl⟩,
    by decide⟩

end Smileys
